import Mathlib

/-!
Verification of the asn1tools.js core: a shallow embedding of the BER
primitives (`src/ber/encoding.ts`), the per-type codecs (`src/ber/types.ts`,
`src/ber/complex-types.ts`), the schema parser (`src/parser.ts`) and the
type compiler (`src/compiler.ts`), together with theorems settling the
frozen claims about the library.

Modelling conventions:
* `Uint8Array` values are `List Nat`, each element an octet (< 256 in any
  array the runtime can build).
* JavaScript `number`/`bigint` integers are `Int`; the runtime's
  native/arbitrary-precision distinction (`toSafeNumber`) is not observable
  in this model, which is the equivalence the specification itself allows.
* Thrown `EncodeError` / `DecodeError` / `ParseError` / `CompileError`
  exceptions become `Except Err` results.  Error message text follows the
  source templates, with quoting punctuation omitted.
* JavaScript `Map` objects are association lists with `mapGet` / `mapSet` /
  `mapDelete`; `Map.delete` removes the single entry holding the key, which
  on the unique-key lists the runtime builds coincides with removing every
  entry with that key.
* 32-bit wrapping of JavaScript `<<` / `|` is modelled by `toInt32`; where
  the shifted accumulator has zero low bits the bitwise-or of a small
  operand is written as addition, which is the same number.
-/

namespace Asn1Tools

/-- The error classes of `src/types.ts`.  `DecodeError` carries the optional
byte offset; `ParseError` folds line and column into the message exactly as
`Asn1Parser.error` does before throwing. -/
inductive Err where
  | encodeErr (msg : String)
  | decodeErr (msg : String) (offset : Option Int)
  | parseErr (msg : String)
  | compileErr (msg : String)
  | asn1Err (msg : String)
deriving DecidableEq, Repr

/-- JavaScript values crossing the codec API: integers (number or bigint),
booleans, strings, byte buffers (`Uint8Array`), `null`, arrays and plain
objects (as ordered property lists). -/
inductive Value where
  | vInt (n : Int)
  | vBool (b : Bool)
  | vStr (s : String)
  | vBytes (bs : List Nat)
  | vNull
  | vArr (vs : List Value)
  | vObj (fields : List (String × Value))
deriving Repr

/-- JavaScript truthiness test for the `!value` guards in the codecs. -/
def jsFalsy : Value → Bool
  | .vInt n => n = 0
  | .vBool b => !b
  | .vStr s => s = ""
  | .vNull => true
  | _ => false

/-- `typeof value === 'object'` (`null` is handled by the falsiness guard
before any `typeof` test in the sources). -/
def jsIsObject : Value → Bool
  | .vObj _ => true
  | .vArr _ => true
  | .vBytes _ => true
  | .vNull => true
  | _ => false

/-- Named own-property lookup, `value[name]`.  Only plain-object properties
are modelled; the exotic index and `length` properties of arrays and typed
arrays are not (no schema-derived member name collides with them). -/
def getProp : Value → String → Option Value
  | .vObj fields, k => (fields.lookup k)
  | _, _ => none

/-- `Map.get` over an association list. -/
def mapGet {κ α : Type} [DecidableEq κ] : List (κ × α) → κ → Option α
  | [], _ => none
  | (k', v) :: rest, k => if k' = k then some v else mapGet rest k

/-- `Map.set`: replace in place or append. -/
def mapSet {κ α : Type} [DecidableEq κ] : List (κ × α) → κ → α → List (κ × α)
  | [], k, v => [(k, v)]
  | (k', v') :: rest, k, v =>
      if k' = k then (k', v) :: rest else (k', v') :: mapSet rest k v

/-- `Map.delete`: remove the entry holding the key. -/
def mapDelete {κ α : Type} [DecidableEq κ] : List (κ × α) → κ → List (κ × α)
  | [], _ => []
  | (k', v') :: rest, k => if k' = k then rest else (k', v') :: mapDelete rest k

/-- `Map.has`. -/
def mapHas {κ α : Type} [DecidableEq κ] (m : List (κ × α)) (k : κ) : Bool :=
  (mapGet m k).isSome

/-- ToInt32: JavaScript 32-bit wrap-around applied by `<<` and `|`. -/
def toInt32 (x : Int) : Int :=
  (x + 2 ^ 31) % 2 ^ 32 - 2 ^ 31

/-- Array indexing `data[i]`, `undefined` outside the bounds. -/
def listGetI (data : List Nat) (i : Int) : Option Nat :=
  if h : 0 ≤ i ∧ i.toNat < data.length then some (data.get ⟨i.toNat, h.2⟩) else none

/-- `Array.prototype.slice(start, end)` with the ECMA clamping rules for
`Int` indices (a negative index counts from the end of the array;
`Int.toNat` clamps at zero, and clamping at the length is subsumed by
`take`/`drop` semantics). -/
def jsSlice (l : List Nat) (start : Int) (endI : Int) : List Nat :=
  let len : Int := l.length
  let s : Nat := if start < 0 then (len + start).toNat else start.toNat
  let e : Nat := if endI < 0 then (len + endI).toNat else endI.toNat
  (l.take e).drop s

/-! ## BER primitives (`src/ber/encoding.ts`) -/

/-- Big-endian base-256 digits, the `while (temp > 0) bytes.unshift(temp & 0xff)`
loop of `encodeLength` and `encodeSignedInteger`.  `fuel` only needs to cover
the number of loop iterations; every caller passes `n + 1`. -/
def natToBytesBE : Nat → Nat → List Nat
  | 0, _ => []
  | fuel + 1, n => if n = 0 then [] else natToBytesBE fuel (n / 256) ++ [n % 256]

/-- Big-endian base-128 digits, the unshift loop of `encodeTag`'s high-form. -/
def natToBase128 : Nat → Nat → List Nat
  | 0, _ => []
  | fuel + 1, n => if n = 0 then [] else natToBase128 fuel (n >>> 7) ++ [n &&& 0x7f]

/-- Set the continuation bit on every base-128 digit but the last. -/
def markContinuation : List Nat → List Nat
  | [] => []
  | [b] => [b]
  | b :: rest => (b ||| 0x80) :: markContinuation rest

/-- `encodeTag(tagNumber, flags)`. -/
def encodeTag (tagNumber : Nat) (flags : Nat) : List Nat :=
  if tagNumber < 31 then [tagNumber ||| flags]
  else (0x1f ||| flags) :: markContinuation (natToBase128 (tagNumber + 1) tagNumber)

/-- `encodeLength(length)`, definite form.  The length argument is an array
length, hence a `Nat`; the source's negative-length guard is vacuous here. -/
def encodeLength (length : Nat) : Except Err (List Nat) :=
  if length ≤ 127 then .ok [length]
  else
    let bytes := natToBytesBE (length + 1) length
    if bytes.length > 127 then .error (.encodeErr "Length too large for BER encoding")
    else .ok ((0x80 ||| bytes.length) :: bytes)

/-- Result record of `decodeTag`. -/
structure TagInfo where
  tag : Int
  length : Nat
  constructed : Bool
deriving DecidableEq, Repr

/-- The high-tag-number loop of `decodeTag`.  The shifted accumulator has
zero low seven bits, so `(tagNumber << 7) | (byte & 0x7f)` is
`toInt32 (tagNumber * 128) + (byte &&& 0x7f)`. -/
def decodeTagLoop (data : List Nat) (offset : Int) :
    Nat → Nat → Int → Except Err (Int × Nat)
  | 0, _, _ => .error (.asn1Err "loop fuel exhausted")
  | fuel + 1, length, tagNumber =>
    if (length : Int) + offset < data.length then
      match listGetI data (offset + (length : Int)) with
      | none => .error (.decodeErr "Unexpected end of data while reading tag" (offset + (length : Int)))
      | some byte =>
        let length := length + 1
        let tagNumber := toInt32 (tagNumber * 128) + ((byte &&& 0x7f : Nat) : Int)
        if byte &&& 0x80 = 0 then .ok (tagNumber, length)
        else if length > 6 then .error (.decodeErr "Tag number too large" offset)
        else decodeTagLoop data offset fuel length tagNumber
    else .ok (tagNumber, length)

/-- `decodeTag(data, offset)`. -/
def decodeTag (data : List Nat) (offset : Int) : Except Err TagInfo :=
  if offset ≥ (data.length : Int) then
    .error (.decodeErr "Unexpected end of data while reading tag" offset)
  else
    match listGetI data offset with
    | none => .error (.decodeErr "Unexpected end of data while reading tag byte" offset)
    | some firstByte =>
      let constructed := firstByte &&& 0x20 ≠ 0
      if firstByte &&& 0x1f ≠ 0x1f then
        .ok ⟨(firstByte &&& 0x1f : Nat), 1, constructed⟩
      else do
        let (tagNumber, length) ← decodeTagLoop data offset (data.length + 1) 1 0
        if offset + (length : Int) > (data.length : Int) then
          .error (.decodeErr "Unexpected end of data while reading high tag number" offset)
        else
          .ok ⟨tagNumber, length, constructed⟩

/-- Result record of `decodeLength`: the decoded length (an `Int`, since the
32-bit accumulator can wrap negative on a four-octet length) and the number
of header octets consumed. -/
structure LengthInfo where
  length : Int
  octets : Nat
deriving DecidableEq, Repr

/-- The `for (i = 1; i <= lengthOctets; i++)` accumulation loop of
`decodeLength`; `(length << 8) | byte` is `toInt32 (length * 256) + byte`
because the shifted accumulator has zero low eight bits and `byte` is an
octet. -/
def decodeLengthLoop (data : List Nat) (offset : Int) :
    Nat → Nat → Int → Except Err Int
  | 0, _, length => .ok length
  | remaining + 1, i, length =>
    match listGetI data (offset + (i : Int)) with
    | none =>
        .error (.decodeErr "Missing length byte" (offset + (i : Int)))
    | some byte =>
        decodeLengthLoop data offset remaining (i + 1) (toInt32 (length * 256) + byte)

/-- `decodeLength(data, offset)`. -/
def decodeLength (data : List Nat) (offset : Int) : Except Err LengthInfo :=
  if offset ≥ (data.length : Int) then
    .error (.decodeErr "Unexpected end of data while reading length" offset)
  else
    match listGetI data offset with
    | none => .error (.decodeErr "No data available for length" offset)
    | some firstByte =>
      if firstByte &&& 0x80 = 0 then .ok ⟨(firstByte : Int), 1⟩
      else
        let lengthOctets := firstByte &&& 0x7f
        if lengthOctets = 0 then
          .error (.decodeErr "Indefinite length not supported in this context" offset)
        else if lengthOctets > 4 then
          .error (.decodeErr "Length too large" offset)
        else if offset + (lengthOctets : Int) ≥ (data.length : Int) then
          .error (.decodeErr "Unexpected end of data while reading length" offset)
        else do
          let length ← decodeLengthLoop data offset lengthOctets 1 0
          .ok ⟨length, lengthOctets + 1⟩

/-- The two's-complement pass of `encodeSignedInteger`, over the re-versed
(little-endian-first) byte list, starting with carry 1; `~byte` is
`-(byte) - 1` and `& 0xff` is `emod 256`.  The source's carry recomputation
compares the already masked byte with `0xff` and is kept as written. -/
def twosComplementLoop : List Nat → Nat → List Nat
  | [], _ => []
  | b :: rest, carry =>
      let nb := (((-(b : Int) - 1) + carry).emod 256).toNat
      let ncarry := if nb > 0xff then 1 else 0
      nb :: twosComplementLoop rest ncarry

/-- `encodeSignedInteger(value)` (after the `number`-to-`bigint` promotion,
which is the identity on mathematical integers). -/
def encodeSignedInteger (value : Int) : List Nat :=
  if value = 0 then [0]
  else
    let negative := value < 0
    let temp : Nat := if negative then (-value - 1).toNat else value.toNat
    let bytes := natToBytesBE (temp + 1) temp
    let bytes := if bytes = [] then [0] else bytes
    if negative then
      let bytes := (twosComplementLoop bytes.reverse 1).reverse
      match bytes with
      | [] => bytes
      | firstByte :: _ => if firstByte &&& 0x80 = 0 then 0xff :: bytes else bytes
    else
      match bytes with
      | [] => bytes
      | firstByte :: _ => if firstByte &&& 0x80 ≠ 0 then 0x00 :: bytes else bytes

/-- The subtract-one-then-invert pass of `decodeSignedInteger`, over the
reversed (little-endian-first) byte list, starting with borrow 1. -/
def subInvertLoop : List Nat → Nat → List Nat
  | [], _ => []
  | b :: rest, borrow =>
      let x : Int := (b : Int) - borrow
      let (x, nborrow) := if x < 0 then (x + 256, 1) else (x, 0)
      let y := ((-x - 1).emod 256).toNat
      y :: subInvertLoop rest nborrow

/-- Big-endian accumulation `result = (result << 8n) | BigInt(byte)` over
arbitrary-precision integers. -/
def beAccum (bytes : List Nat) : Nat :=
  bytes.foldl (fun acc b => (acc <<< 8) ||| b) 0

/-- `decodeSignedInteger(data)`. -/
def decodeSignedInteger (data : List Nat) : Except Err Int :=
  match data with
  | [] => .error (.decodeErr "Empty integer data" none)
  | firstByte :: _ =>
    if firstByte &&& 0x80 ≠ 0 then
      let bytes := (subInvertLoop data.reverse 1).reverse
      .ok (-(beAccum bytes : Int) - 1)
    else
      .ok (beAccum data : Int)

/-- `toSafeNumber`: narrowing a bigint to a native number when it fits the
safe range.  Numbers and bigints are both `Int` here, so this is the
identity; the claims' integer equivalence quotients exactly this. -/
def toSafeNumber (value : Int) : Int := value

/-! ## The `Asn1Type` interface and per-type codecs
(`src/ber/types.ts`, `src/ber/complex-types.ts`)

The TypeScript classes all implement the `Asn1Type` interface: a name, a
tag number, and `encode`/`decode` methods.  Dynamic dispatch through that
interface becomes a structure of functions; each class constructor becomes
a Lean function producing such a structure. -/

/-- The BER constants of `src/types.ts` used by the codecs. -/
def tagBOOLEAN : Nat := 0x01
def tagINTEGER : Nat := 0x02
def tagOCTET_STRING : Nat := 0x04
def tagNULL : Nat := 0x05
def tagENUMERATED : Nat := 0x0a
def tagSEQUENCE : Nat := 0x10
def tagCHOICE : Nat := 0xff
def classCONTEXT_SPECIFIC : Nat := 0x80
def encodingCONSTRUCTED : Nat := 0x20
def encodingPRIMITIVE : Nat := 0x00

/-- The `Asn1Type` interface of `src/types.ts`. -/
structure Asn1TypeI where
  name : String
  tag : Nat
  encode : Value → Except Err (List Nat)
  decode : List Nat → Int → Except Err (Value × Int)

/-- The message carried by a thrown error (`error.message`). -/
def errMessage : Err → String
  | .encodeErr m => m
  | .decodeErr m _ => m
  | .parseErr m => m
  | .compileErr m => m
  | .asn1Err m => m

/-- `BaseType.encodeWithTag`: tag, definite length, then content. -/
def encodeWithTagF (tag : Nat) (constructed : Bool) (content : List Nat) :
    Except Err (List Nat) := do
  let tagBytes := encodeTag tag (if constructed then encodingCONSTRUCTED else encodingPRIMITIVE)
  let lengthBytes ← encodeLength content.length
  .ok (tagBytes ++ lengthBytes ++ content)

/-- `BaseType.decodeWithTag`: read the tag, verify the tag number against the
codec's expected tag, read the length, slice the content window.  Returns
the content octets and the total frame length. -/
def decodeWithTagF (name : String) (tag : Nat) (data : List Nat) (offset : Int) :
    Except Err (List Nat × Int) :=
  if offset ≥ (data.length : Int) then
    .error (.decodeErr ("Unexpected end of data while decoding " ++ name) (some offset))
  else do
    let tagInfo ← decodeTag data offset
    let currentOffset := offset + (tagInfo.length : Int)
    if tagInfo.tag ≠ (tag : Int) then
      .error (.decodeErr ("Expected tag " ++ toString tag ++ " for " ++ name ++
        ", got " ++ toString tagInfo.tag) (some offset))
    else do
      let lengthInfo ← decodeLength data currentOffset
      let contentOffset := currentOffset + (lengthInfo.octets : Int)
      if contentOffset + lengthInfo.length > (data.length : Int) then
        .error (.decodeErr ("Not enough data for " ++ name) (some contentOffset))
      else
        .ok (jsSlice data contentOffset (contentOffset + lengthInfo.length),
             (tagInfo.length : Int) + (lengthInfo.octets : Int) + lengthInfo.length)

/-- `new IntegerType(name)`. -/
def IntegerType (name : String) : Asn1TypeI where
  name := name
  tag := tagINTEGER
  encode := fun value =>
    match value with
    | .vInt n => encodeWithTagF tagINTEGER false (encodeSignedInteger n)
    | _ => .error (.encodeErr ("INTEGER " ++ name ++ ": expected number or bigint"))
  decode := fun data offset => do
    let (content, totalLength) ← decodeWithTagF name tagINTEGER data offset
    if content = [] then
      .error (.decodeErr ("INTEGER " ++ name ++ ": empty content") (some offset))
    else do
      let bigintValue ← decodeSignedInteger content
      .ok (.vInt (toSafeNumber bigintValue), totalLength)

/-- `new BooleanType(name)`. -/
def BooleanType (name : String) : Asn1TypeI where
  name := name
  tag := tagBOOLEAN
  encode := fun value =>
    match value with
    | .vBool b => encodeWithTagF tagBOOLEAN false [if b then 0xff else 0x00]
    | _ => .error (.encodeErr ("BOOLEAN " ++ name ++ ": expected boolean"))
  decode := fun data offset => do
    let (content, totalLength) ← decodeWithTagF name tagBOOLEAN data offset
    match content with
    | [b] => .ok (.vBool (b ≠ 0), totalLength)
    | _ =>
      .error (.decodeErr ("BOOLEAN " ++ name ++ ": expected 1 byte content, got " ++
        toString content.length) (some offset))

/-- Hex digit test of the `[^0-9a-fA-F]` stripping regular expression. -/
def isHexChar (c : Char) : Bool :=
  ("0" ≤ c.toString ∧ c.toString ≤ "9") ∨ ("a" ≤ c.toString ∧ c.toString ≤ "f") ∨
    ("A" ≤ c.toString ∧ c.toString ≤ "F")

/-- Value of one hex digit. -/
def hexCharVal (c : Char) : Nat :=
  if c.toNat ≥ 97 then c.toNat - 87
  else if c.toNat ≥ 65 then c.toNat - 55
  else c.toNat - 48

/-- `parseInt(hex.substr(i, 2), 16)` pair-at-a-time hex parsing loop. -/
def hexPairsToBytes : List Char → List Nat
  | c1 :: c2 :: rest => (hexCharVal c1 * 16 + hexCharVal c2) :: hexPairsToBytes rest
  | _ => []

/-- `ToUint8` coercion applied element-wise by `new Uint8Array(array)`.
Only numeric and boolean elements are modelled; other element shapes
coerce through NaN to 0 exactly as the catch-all does here. -/
def jsToUint8 : Value → Nat
  | .vInt n => (n.emod 256).toNat
  | .vBool b => if b then 1 else 0
  | _ => 0

/-- `new OctetStringType(name)`.  The `ArrayBuffer` branch of the source
coincides with the `Uint8Array` branch on the byte-list model. -/
def OctetStringType (name : String) : Asn1TypeI where
  name := name
  tag := tagOCTET_STRING
  encode := fun value =>
    match value with
    | .vBytes bs => encodeWithTagF tagOCTET_STRING false bs
    | .vArr vs => encodeWithTagF tagOCTET_STRING false (vs.map jsToUint8)
    | .vStr s =>
        let hex := s.data.filter isHexChar
        if hex.length % 2 ≠ 0 then
          .error (.encodeErr ("OCTET STRING " ++ name ++ ": hex string must have even length"))
        else encodeWithTagF tagOCTET_STRING false (hexPairsToBytes hex)
    | _ =>
        .error (.encodeErr ("OCTET STRING " ++ name ++
          ": expected Uint8Array, ArrayBuffer, number[], or hex string"))
  decode := fun data offset => do
    let (content, totalLength) ← decodeWithTagF name tagOCTET_STRING data offset
    .ok (.vBytes content, totalLength)

/-- `new NullType(name)`. -/
def NullType (name : String) : Asn1TypeI where
  name := name
  tag := tagNULL
  encode := fun value =>
    match value with
    | .vNull => encodeWithTagF tagNULL false []
    | _ => .error (.encodeErr ("NULL " ++ name ++ ": expected null or undefined"))
  decode := fun data offset => do
    let (content, totalLength) ← decodeWithTagF name tagNULL data offset
    if content = [] then .ok (.vNull, totalLength)
    else
      .error (.decodeErr ("NULL " ++ name ++ ": expected empty content, got " ++
        toString content.length ++ " bytes") (some offset))

/-- `new EnumeratedType(name, values)`: builds the name-to-number and
number-to-name maps, encodes the numeric value as a signed integer, decodes
back to the name. -/
def EnumeratedType (name : String) (values : List (String × Int)) : Asn1TypeI :=
  let valueMap : List (String × Int) := values.foldl (fun m p => mapSet m p.1 p.2) []
  let nameMap : List (Int × String) := values.foldl (fun m p => mapSet m p.2 p.1) []
  { name := name
    tag := tagENUMERATED
    encode := fun value =>
      match value with
      | .vStr s =>
          match mapGet valueMap s with
          | none => .error (.encodeErr ("ENUMERATED " ++ name ++ ": unknown value " ++ s))
          | some enumValue => encodeWithTagF tagENUMERATED false (encodeSignedInteger enumValue)
      | .vInt n =>
          if ¬ mapHas nameMap n then
            .error (.encodeErr ("ENUMERATED " ++ name ++ ": unknown numeric value " ++ toString n))
          else encodeWithTagF tagENUMERATED false (encodeSignedInteger n)
      | _ => .error (.encodeErr ("ENUMERATED " ++ name ++ ": expected string or number"))
    decode := fun data offset => do
      let (content, totalLength) ← decodeWithTagF name tagENUMERATED data offset
      if content = [] then
        .error (.decodeErr ("ENUMERATED " ++ name ++ ": empty content") (some offset))
      else do
        let bigintValue ← decodeSignedInteger content
        let numericValue := bigintValue
        match mapGet nameMap numericValue with
        | none =>
            .error (.decodeErr ("ENUMERATED " ++ name ++ ": unknown value " ++
              toString numericValue) (some offset))
        | some n => .ok (.vStr n, totalLength) }

/-- A SEQUENCE member as stored by `SequenceType`: name, codec, `optional`
flag and optional default value.  Absent boolean flags are falsy, so
`optional` is a plain `Bool`. -/
structure SeqMember where
  name : String
  type : Asn1TypeI
  optional : Bool := false
  defaultValue : Option Value := none

/-- The `memberValue === undefined || memberValue === null` test of
`SequenceType.encode` (an absent property reads as `undefined`). -/
def jsAbsent : Option Value → Bool
  | none => true
  | some .vNull => true
  | some _ => false

/-- The member-encoding loop of `SequenceType.encode`: builds the list of
encoded member frames in declared order.  An `undefined` (absent property)
and an explicit `null` take the same branch, as in the source; in the
present branch `getD` merely names the value inside the `some`. -/
def seqEncodeMembers (seqName : String) : List SeqMember → Value → Except Err (List (List Nat))
  | [], _ => .ok []
  | m :: rest, value =>
      let memberValue := getProp value m.name
      if jsAbsent memberValue then
        if m.optional then seqEncodeMembers seqName rest value
        else
          match m.defaultValue with
          | some d => do
              let encoded ← m.type.encode d
              let tail ← seqEncodeMembers seqName rest value
              .ok (encoded :: tail)
          | none =>
              .error (.encodeErr ("SEQUENCE " ++ seqName ++ ": missing required member " ++ m.name))
      else do
        let encoded ← m.type.encode (memberValue.getD .vNull)
        let tail ← seqEncodeMembers seqName rest value
        .ok (encoded :: tail)

/-- The member-decoding walk of `SequenceType.decode`.  The first phase runs
while content remains: a failed member decode is recovered only for optional
or defaulted members (consuming no bytes).  Once content is exhausted the
remaining members must be optional or defaulted; defaults are assigned. -/
def seqDecodeMembers (seqName : String) (content : List Nat) (offset : Int) :
    List SeqMember → Int → List (String × Value) → Except Err (List (String × Value))
  | [], _, acc => .ok acc
  | m :: rest, contentOffset, acc =>
    if contentOffset < (content.length : Int) then
      match m.type.decode content contentOffset with
      | .ok (v, l) =>
          seqDecodeMembers seqName content offset rest (contentOffset + l) (mapSet acc m.name v)
      | .error e =>
          if m.optional then seqDecodeMembers seqName content offset rest contentOffset acc
          else
            match m.defaultValue with
            | some d =>
                seqDecodeMembers seqName content offset rest contentOffset (mapSet acc m.name d)
            | none =>
                .error (.decodeErr ("SEQUENCE " ++ seqName ++ ": failed to decode member " ++
                  m.name ++ ": " ++ errMessage e) (some (offset + contentOffset)))
    else
      if !m.optional && m.defaultValue.isNone then
        .error (.decodeErr ("SEQUENCE " ++ seqName ++ ": missing required member " ++ m.name)
          (some offset))
      else
        let acc := match m.defaultValue with
          | some d => mapSet acc m.name d
          | none => acc
        seqDecodeMembers seqName content offset rest contentOffset acc

/-- `new SequenceType(name, members)`. -/
def SequenceType (name : String) (members : List SeqMember) : Asn1TypeI where
  name := name
  tag := tagSEQUENCE
  encode := fun value =>
    if jsFalsy value || !jsIsObject value then
      .error (.encodeErr ("SEQUENCE " ++ name ++ ": expected object"))
    else do
      let encodedMembers ← seqEncodeMembers name members value
      encodeWithTagF tagSEQUENCE true encodedMembers.flatten
  decode := fun data offset => do
    let (content, totalLength) ← decodeWithTagF name tagSEQUENCE data offset
    let result ← seqDecodeMembers name content offset members 0 []
    .ok (.vObj result, totalLength)

/-- The element-encoding loop of `SequenceOfType.encode`. -/
def seqOfEncodeElements (seqName : String) (elementType : Asn1TypeI) :
    List Value → Nat → Except Err (List (List Nat))
  | [], _ => .ok []
  | v :: rest, i =>
      match elementType.encode v with
      | .ok encoded => do
          let tail ← seqOfEncodeElements seqName elementType rest (i + 1)
          .ok (encoded :: tail)
      | .error e =>
          .error (.encodeErr ("SEQUENCE OF " ++ seqName ++ ": failed to encode element " ++
            toString i ++ ": " ++ errMessage e))

/-- The element-decoding loop of `SequenceOfType.decode`.  The source loop
runs while content remains and only terminates because each well-formed
element frame consumes at least two octets; an element codec that consumed
nothing would loop forever in JavaScript, which surfaces here as fuel
exhaustion. -/
def seqOfDecodeLoop (seqName : String) (elementType : Asn1TypeI) (content : List Nat)
    (offset : Int) : Nat → Int → List Value → Except Err (List Value)
  | 0, _, _ => .error (.asn1Err "loop fuel exhausted")
  | fuel + 1, contentOffset, acc =>
    if contentOffset < (content.length : Int) then
      match elementType.decode content contentOffset with
      | .ok (v, l) => seqOfDecodeLoop seqName elementType content offset fuel
          (contentOffset + l) (acc ++ [v])
      | .error e =>
          .error (.decodeErr ("SEQUENCE OF " ++ seqName ++ ": failed to decode element " ++
            toString acc.length ++ ": " ++ errMessage e) (some (offset + contentOffset)))
    else .ok acc

/-- `new SequenceOfType(name, elementType)`. -/
def SequenceOfType (name : String) (elementType : Asn1TypeI) : Asn1TypeI where
  name := name
  tag := tagSEQUENCE
  encode := fun value =>
    match value with
    | .vArr vs => do
        let encodedElements ← seqOfEncodeElements name elementType vs 0
        encodeWithTagF tagSEQUENCE true encodedElements.flatten
    | _ => .error (.encodeErr ("SEQUENCE OF " ++ name ++ ": expected array"))
  decode := fun data offset => do
    let (content, totalLength) ← decodeWithTagF name tagSEQUENCE data offset
    let result ← seqOfDecodeLoop name elementType content offset (content.length + 1) 0 []
    .ok (.vArr result, totalLength)

/-- A CHOICE alternative as passed to the `ChoiceType` constructor. -/
structure ChoiceAlt where
  name : String
  type : Asn1TypeI
  tag : Option Nat := none

/-- `Object.keys(value)`: property names of plain objects, index keys of
arrays and typed arrays. -/
def jsKeys : Value → List String
  | .vObj fields => fields.map (·.1)
  | .vArr vs => (List.range vs.length).map (fun i => toString i)
  | .vBytes bs => (List.range bs.length).map (fun i => toString i)
  | _ => []

/-- The name-keyed alternatives map built by the `ChoiceType` constructor. -/
def choicesMapOf (choices : List ChoiceAlt) : List (String × (Asn1TypeI × Option Nat)) :=
  choices.foldl (fun m c => mapSet m c.name (c.type, c.tag)) []

/-- An alternative's effective tag number, `choice.tag ?? choice.type.tag`
(as the decoder's `Int` tag domain). -/
def effTagOf (c : ChoiceAlt) : Int :=
  ((c.tag.getD c.type.tag : Nat) : Int)

/-- The tag-keyed dispatch map built by the `ChoiceType` constructor: the
context-specific tag if declared, otherwise the alternative type's tag. -/
def tagToChoiceOf (choices : List ChoiceAlt) : List (Int × String) :=
  choices.foldl (fun m c => mapSet m (effTagOf c) c.name) []

/-- `new ChoiceType(name, choices)`. -/
def ChoiceType (name : String) (choices : List ChoiceAlt) : Asn1TypeI :=
  let choicesMap := choicesMapOf choices
  let tagToChoice := tagToChoiceOf choices
  { name := name
    tag := tagCHOICE
    encode := fun value =>
      if jsFalsy value || !jsIsObject value then
        .error (.encodeErr ("CHOICE " ++ name ++ ": expected object with single property"))
      else
        let keys := jsKeys value
        if keys.length ≠ 1 then
          .error (.encodeErr ("CHOICE " ++ name ++
            ": expected object with exactly one property, got " ++ toString keys.length))
        else
          let choiceName := keys.headD ""
          if choiceName = "" then
            .error (.encodeErr ("CHOICE " ++ name ++ ": invalid choice name"))
          else
            -- `value[choiceName]` is defined whenever the name-keyed lookup
            -- below succeeds, so the `undefined` default is unreachable then.
            let choiceValue := (getProp value choiceName).getD .vNull
            match mapGet choicesMap choiceName with
            | none =>
                .error (.encodeErr ("CHOICE " ++ name ++ ": unknown choice " ++ choiceName))
            | some choice =>
                match choice.2 with
                | some ctag => do
                    let innerEncoded ← choice.1.encode choiceValue
                    let tagBytes := encodeTag ctag (classCONTEXT_SPECIFIC ||| encodingCONSTRUCTED)
                    let lengthBytes ← encodeLength innerEncoded.length
                    .ok (tagBytes ++ lengthBytes ++ innerEncoded)
                | none => choice.1.encode choiceValue
    decode := fun data offset =>
      if offset ≥ (data.length : Int) then
        .error (.decodeErr ("CHOICE " ++ name ++ ": unexpected end of data") (some offset))
      else do
        let tagInfo ← decodeTag data offset
        match mapGet tagToChoice tagInfo.tag with
        | none =>
            .error (.decodeErr ("CHOICE " ++ name ++ ": no choice found for tag " ++
              toString tagInfo.tag) (some offset))
        | some choiceName =>
          match mapGet choicesMap choiceName with
          | none =>
              .error (.decodeErr ("CHOICE " ++ name ++ ": internal error - choice " ++
                choiceName ++ " not found") (some offset))
          | some choice =>
            match choice.2 with
            | some _ => do
                let lengthInfo ← decodeLength data (offset + (tagInfo.length : Int))
                let contentStart := offset + (tagInfo.length : Int) + (lengthInfo.octets : Int)
                let contentEnd := contentStart + lengthInfo.length
                if contentEnd > (data.length : Int) then
                  .error (.decodeErr ("CHOICE " ++ name ++ ": not enough data for choice content")
                    (some offset))
                else do
                  let decoded ← choice.1.decode (jsSlice data contentStart contentEnd) 0
                  .ok (.vObj [(choiceName, decoded.1)],
                       (tagInfo.length : Int) + (lengthInfo.octets : Int) + lengthInfo.length)
            | none => do
                let decoded ← choice.1.decode data offset
                .ok (.vObj [(choiceName, decoded.1)], decoded.2) }

/-! ## Parsed-type trees and the compiler (`src/types.ts`, `src/compiler.ts`) -/

/-- The `constraints` bag of a `ParsedType`. -/
structure Constraints where
  definedType : Option String := none
  values : Option (List (String × Int)) := none
  size : Option Int := none
  range : Option (Int × Int) := none
  value : Option Int := none
deriving Repr

/-- The `ParsedType` interface: a record with a name, a variant string and
optional tag, flags, constraints, members, element type and choices.  An
absent (`undefined`) array-valued field differs from an empty array for the
compiler's `!parsedType.members` style guards, hence the `Option` around the
lists. -/
inductive ParsedType where
  | mk (name : String) (type : String) (tag : Option Nat) (optional : Bool)
       (defaultValue : Option Value) (constraints : Option Constraints)
       (members : Option (List ParsedType)) (elementType : Option ParsedType)
       (choices : Option (List ParsedType))
deriving Repr

def ParsedType.name : ParsedType → String
  | .mk n _ _ _ _ _ _ _ _ => n

def ParsedType.type : ParsedType → String
  | .mk _ t _ _ _ _ _ _ _ => t

def ParsedType.tag : ParsedType → Option Nat
  | .mk _ _ t _ _ _ _ _ _ => t

def ParsedType.optional : ParsedType → Bool
  | .mk _ _ _ o _ _ _ _ _ => o

def ParsedType.defaultValue : ParsedType → Option Value
  | .mk _ _ _ _ d _ _ _ _ => d

def ParsedType.constraints : ParsedType → Option Constraints
  | .mk _ _ _ _ _ c _ _ _ => c

def ParsedType.members : ParsedType → Option (List ParsedType)
  | .mk _ _ _ _ _ _ m _ _ => m

def ParsedType.elementType : ParsedType → Option ParsedType
  | .mk _ _ _ _ _ _ _ e _ => e

def ParsedType.choices : ParsedType → Option (List ParsedType)
  | .mk _ _ _ _ _ _ _ _ c => c

/-- A parsed module: name and ordered type table. -/
abbrev ParsedModuleL := String × List (String × ParsedType)

/-- The compiler's registries: per-module compiled tables and the global
table, mutated in place by the source and threaded explicitly here. -/
structure CompilerState where
  modules : List (String × List (String × Asn1TypeI))
  globalTypes : List (String × Asn1TypeI)

/-- `parsedType.name || 'Anonymous'` (the empty string is falsy). -/
def parsedTypeName (p : ParsedType) : String :=
  if p.name = "" then "Anonymous" else p.name

/-- `Asn1Compiler.resolveDefinedType`: current module first, then the global
table, else a compile error. -/
def resolveDefinedTypeF (st : CompilerState) (typeName moduleName : String)
    (p : ParsedType) : Except Err Asn1TypeI :=
  match p.constraints.bind (·.definedType) with
  | none => .error (.compileErr ("Defined type " ++ typeName ++ " missing reference"))
  | some definedTypeName =>
    if definedTypeName = "" then
      .error (.compileErr ("Defined type " ++ typeName ++ " missing reference"))
    else
      let fromModule :=
        match mapGet st.modules moduleName with
        | some currentModule => mapGet currentModule definedTypeName
        | none => none
      match fromModule with
      | some typeInModule => .ok typeInModule
      | none =>
        match mapGet st.globalTypes definedTypeName with
        | some globalType => .ok globalType
        | none =>
            .error (.compileErr ("Undefined type reference: " ++ definedTypeName ++
              " in " ++ typeName))

mutual

/-- `Asn1Compiler.compileType` / `compileTypeInternal`.  Recursion is
structural over the parse tree in the source (`resolveDefinedType` never
recurses), so the fuel only needs to exceed the tree size; the in-progress
`resolving` set grows downward exactly as the source's `try`/`finally`
add/delete pair scopes it. -/
def compileTypeF : Nat → CompilerState → List String → String → ParsedType →
    Except Err Asn1TypeI
  | 0, _, _, _, _ => .error (.asn1Err "recursion fuel exhausted")
  | fuel + 1, st, resolving, moduleName, p =>
    let typeName := parsedTypeName p
    let fullName := moduleName ++ "." ++ typeName
    if fullName ∈ resolving then
      .error (.compileErr ("Circular reference detected for type " ++ fullName))
    else
      let resolving := fullName :: resolving
      match p.type with
      | "INTEGER" => .ok (IntegerType typeName)
      | "BOOLEAN" => .ok (BooleanType typeName)
      | "OCTET_STRING" => .ok (OctetStringType typeName)
      | "NULL" => .ok (NullType typeName)
      | "ENUMERATED" =>
        match p.constraints.bind (·.values) with
        | none => .error (.compileErr ("ENUMERATED type " ++ typeName ++ " missing values"))
        | some values => .ok (EnumeratedType typeName values)
      | "SEQUENCE" =>
        match p.members with
        | none => .error (.compileErr ("SEQUENCE type " ++ typeName ++ " missing members"))
        | some parsedMembers => do
            let members ← compileMembersF fuel st resolving moduleName parsedMembers
            .ok (SequenceType typeName members)
      | "SEQUENCE_OF" =>
        match p.elementType with
        | none => .error (.compileErr ("SEQUENCE OF type " ++ typeName ++ " missing element type"))
        | some elementParsed => do
            let elementType ← compileTypeF fuel st resolving moduleName elementParsed
            .ok (SequenceOfType typeName elementType)
      | "CHOICE" =>
        match p.choices with
        | none => .error (.compileErr ("CHOICE type " ++ typeName ++ " missing choices"))
        | some parsedChoices => do
            let alts ← compileChoicesF fuel st resolving moduleName parsedChoices
            .ok (ChoiceType typeName alts)
      | "DEFINED" => resolveDefinedTypeF st typeName moduleName p
      | other => .error (.compileErr ("Unsupported type: " ++ other ++ " for " ++ typeName))

/-- The `parsedType.members.map(...)` loop of `compileSequenceType`: each
member becomes a name, compiled codec, `optional` flag and default value.
The member's context-specific tag is not read. -/
def compileMembersF : Nat → CompilerState → List String → String → List ParsedType →
    Except Err (List SeqMember)
  | 0, _, _, _, _ => .error (.asn1Err "recursion fuel exhausted")
  | _ + 1, _, _, _, [] => .ok []
  | fuel + 1, st, resolving, moduleName, member :: rest => do
      let compiled ← compileTypeF fuel st resolving moduleName member
      let tail ← compileMembersF fuel st resolving moduleName rest
      .ok ({ name := member.name, type := compiled, optional := member.optional,
             defaultValue := member.defaultValue } :: tail)

/-- The `parsedType.choices.map(...)` loop of `compileChoiceType`: each
alternative becomes a name, compiled codec and optional context tag. -/
def compileChoicesF : Nat → CompilerState → List String → String → List ParsedType →
    Except Err (List ChoiceAlt)
  | 0, _, _, _, _ => .error (.asn1Err "recursion fuel exhausted")
  | _ + 1, _, _, _, [] => .ok []
  | fuel + 1, st, resolving, moduleName, choice :: rest => do
      let compiled ← compileTypeF fuel st resolving moduleName choice
      let tail ← compileChoicesF fuel st resolving moduleName rest
      .ok ({ name := choice.name, type := compiled, tag := choice.tag } :: tail)

end

/-- The per-type body of the compiler's second pass: compile the type
against the current registries, add it to its module's table, then apply the
global-table rule — a colliding name is deleted, a fresh name inserted. -/
def compileModuleTypesF (fuel : Nat) (moduleName : String) :
    List (String × ParsedType) → CompilerState → Except Err CompilerState
  | [], st => .ok st
  | (typeName, parsedType) :: rest, st => do
      let compiledType ← compileTypeF fuel st [] moduleName parsedType
      let moduleTypes := (mapGet st.modules moduleName).getD []
      let st : CompilerState :=
        { modules := mapSet st.modules moduleName (mapSet moduleTypes typeName compiledType)
          globalTypes :=
            if mapHas st.globalTypes typeName then mapDelete st.globalTypes typeName
            else mapSet st.globalTypes typeName compiledType }
      compileModuleTypesF fuel moduleName rest st

/-- The module loop of the compiler's second pass. -/
def compileModulesF (fuel : Nat) : List ParsedModuleL → CompilerState → Except Err CompilerState
  | [], st => .ok st
  | (moduleName, types) :: rest, st =>
      if ¬ mapHas st.modules moduleName then
        .error (.compileErr ("Module " ++ moduleName ++ " not found"))
      else do
        let st ← compileModuleTypesF fuel moduleName types st
        compileModulesF fuel rest st

/-- The compiled `Asn1Specification`: module registries and global table. -/
structure Specification where
  modules : List (String × List (String × Asn1TypeI))
  types : List (String × Asn1TypeI)

/-- `Asn1Compiler.compile`: pass 1 creates the (empty) module tables, pass 2
compiles every type and fills the per-module and global registries. -/
def compileF (fuel : Nat) (parsedModules : List ParsedModuleL) : Except Err Specification := do
  let st0 : CompilerState :=
    { modules := parsedModules.foldl (fun m pm => mapSet m pm.1 []) []
      globalTypes := [] }
  let st ← compileModulesF fuel parsedModules st0
  .ok ⟨st.modules, st.globalTypes⟩

/-- `Specification.encode`: global-table lookup, then the codec's encode;
an absent name is a `CompileError`. -/
def Specification.encode (s : Specification) (typeName : String) (value : Value) :
    Except Err (List Nat) :=
  match mapGet s.types typeName with
  | none => .error (.compileErr ("Type " ++ typeName ++ " not found"))
  | some t => t.encode value

/-- `Specification.decode`: global-table lookup, then the codec's decode at
offset 0, returning the value and ignoring trailing bytes. -/
def Specification.decode (s : Specification) (typeName : String) (data : List Nat) :
    Except Err Value :=
  match mapGet s.types typeName with
  | none => .error (.compileErr ("Type " ++ typeName ++ " not found"))
  | some t => do
      let result ← t.decode data 0
      .ok result.1

/-! ## The schema parser (`src/parser.ts`)

`Asn1Parser` keeps the input string plus a position / line / column cursor.
The input is passed to every function and the cursor threaded explicitly.
Character-level `while` loops advance the position each iteration, so a fuel
of `input.length + 1` covers them; the grammar-level recursion is fueled and
every call site strictly decreases the fuel, which is irrelevant on any run
that does not exhaust it. -/

/-- Parser cursor state. -/
structure PState where
  pos : Nat
  line : Nat
  column : Nat
deriving Repr

/-- The `'\0'` sentinel returned by `peek` past the end. -/
def nulChar : Char := Char.ofNat 0

/-- Literal brace characters (also used to build schema text in theorems). -/
def lbraceC : Char := Char.ofNat 123
def rbraceC : Char := Char.ofNat 125
def lbraceS : String := String.mk [lbraceC]
def rbraceS : String := String.mk [rbraceC]

def pIsAtEnd (input : List Char) (st : PState) : Bool :=
  st.pos ≥ input.length

def pPeek (input : List Char) (st : PState) : Char :=
  if pIsAtEnd input st then nulChar else (input.get? st.pos).getD nulChar

def pPeekNext (input : List Char) (st : PState) : Char :=
  if st.pos + 1 ≥ input.length then nulChar else (input.get? (st.pos + 1)).getD nulChar

/-- `advance()`: bump column, return the character, bump position. -/
def pAdvance (input : List Char) (st : PState) : Char × PState :=
  if pIsAtEnd input st then (nulChar, st)
  else ((input.get? st.pos).getD nulChar,
        { st with pos := st.pos + 1, column := st.column + 1 })

/-- `/[a-zA-Z]/.test(char)`. -/
def pIsAlpha (c : Char) : Bool :=
  (97 ≤ c.toNat && c.toNat ≤ 122) || (65 ≤ c.toNat && c.toNat ≤ 90)

/-- `/[0-9]/.test(char)`. -/
def pIsDigit (c : Char) : Bool :=
  48 ≤ c.toNat && c.toNat ≤ 57

def pIsAlphaNumeric (c : Char) : Bool :=
  pIsAlpha c || pIsDigit c

/-- The inner `--`-comment loop: advance until newline or end. -/
def skipCommentF (input : List Char) : Nat → PState → PState
  | 0, st => st
  | fuel + 1, st =>
    if ¬pIsAtEnd input st ∧ pPeek input st ≠ '\n' then
      skipCommentF input fuel (pAdvance input st).2
    else st

/-- `skipWhitespaceAndComments()`. -/
def skipWSF (input : List Char) : Nat → PState → PState
  | 0, st => st
  | fuel + 1, st =>
    let c := pPeek input st
    if c = ' ' ∨ c = '\t' ∨ c = '\r' then skipWSF input fuel (pAdvance input st).2
    else if c = '\n' then
      skipWSF input fuel (pAdvance input { st with line := st.line + 1, column := 1 }).2
    else if c = '-' ∧ pPeekNext input st = '-' then
      skipWSF input fuel (skipCommentF input (input.length + 1) st)
    else st

/-- `skipWhitespaceAndComments()` with the standard fuel. -/
def skipWS (input : List Char) (st : PState) : PState :=
  skipWSF input (input.length + 1) st

/-- `check(expected)`: literal substring match at the cursor. -/
def pCheck (input : List Char) (st : PState) (expected : List Char) : Bool :=
  if st.pos + expected.length > input.length then false
  else (input.drop st.pos).take expected.length = expected

/-- `checkKeyword(keyword)`: substring match not followed by a letter or
digit (a space stands in past the end). -/
def pCheckKeyword (input : List Char) (st : PState) (keyword : String) : Bool :=
  if st.pos + keyword.length > input.length then false
  else
    let slice := (input.drop st.pos).take keyword.length
    let nextChar :=
      if st.pos + keyword.length < input.length then
        (input.get? (st.pos + keyword.length)).getD ' '
      else ' '
    slice = keyword.data ∧ ¬pIsAlphaNumeric nextChar

/-- `error(message)`: a `ParseError` with line and column folded into the
message. -/
def pErr {α : Type} (st : PState) (message : String) : Except Err α :=
  .error (.parseErr (message ++ " at line " ++ toString st.line ++ ", column " ++
    toString st.column))

/-- `expectKeyword(keyword)`: skip layout, match, jump the position past the
keyword (the source does not advance the column counter here). -/
def pExpectKeyword (input : List Char) (st : PState) (keyword : String) :
    Except Err PState :=
  let st := skipWS input st
  if ¬pCheckKeyword input st keyword then pErr st ("Expected keyword " ++ keyword)
  else .ok { st with pos := st.pos + keyword.length }

/-- `expectToken(token)`. -/
def pExpectToken (input : List Char) (st : PState) (token : String) :
    Except Err PState :=
  let st := skipWS input st
  if ¬pCheck input st token.data then pErr st ("Expected " ++ token)
  else .ok { st with pos := st.pos + token.length }

/-- The alphanumeric run consumed by `parseIdentifier`. -/
def identLoopF (input : List Char) : Nat → PState → PState
  | 0, st => st
  | fuel + 1, st =>
    if pIsAlphaNumeric (pPeek input st) then identLoopF input fuel (pAdvance input st).2
    else st

/-- `parseIdentifier()`. -/
def pParseIdentifier (input : List Char) (st : PState) : Except Err (String × PState) :=
  let st := skipWS input st
  if ¬pIsAlpha (pPeek input st) then pErr st "Expected identifier"
  else
    let start := st.pos
    let st := identLoopF input (input.length + 1) st
    .ok (String.mk ((input.drop start).take (st.pos - start)), st)

/-- The digit run consumed by `parseNumber`. -/
def digitLoopF (input : List Char) : Nat → PState → PState
  | 0, st => st
  | fuel + 1, st =>
    if pIsDigit (pPeek input st) then digitLoopF input fuel (pAdvance input st).2
    else st

/-- `parseNumber()`: optional minus sign then a decimal digit run. -/
def pParseNumber (input : List Char) (st : PState) : Except Err (Int × PState) :=
  let st := skipWS input st
  let (negative, st) :=
    if pCheck input st ['-'] then (true, (pAdvance input st).2) else (false, st)
  if ¬pIsDigit (pPeek input st) then pErr st "Expected number"
  else
    let start := st.pos
    let st := digitLoopF input (input.length + 1) st
    let digits := (input.drop start).take (st.pos - start)
    let value : Int := digits.foldl (fun acc c => acc * 10 + ((c.toNat - 48 : Nat) : Int)) 0
    .ok (if negative then -value else value, st)

/-- The character run consumed by `parseString` up to the closing quote. -/
def stringLoopF (input : List Char) : Nat → PState → PState
  | 0, st => st
  | fuel + 1, st =>
    if ¬pCheck input st ['"'] ∧ ¬pIsAtEnd input st then
      stringLoopF input fuel (pAdvance input st).2
    else st

/-- `parseString()`: a double-quoted literal without escapes. -/
def pParseQuoted (input : List Char) (st : PState) : Except Err (String × PState) := do
  let st ← pExpectToken input st "\""
  let start := st.pos
  let st := stringLoopF input (input.length + 1) st
  let value := String.mk ((input.drop start).take (st.pos - start))
  let st ← pExpectToken input st "\""
  .ok (value, st)

/-- `checkNumber()`. -/
def pCheckNumber (input : List Char) (st : PState) : Bool :=
  pIsDigit (pPeek input st) || (pPeek input st = '-' && pIsDigit (pPeekNext input st))

/-- `parseTag()`: `[ Number ]`.  The grammar's tag numbers are non-negative
in any meaningful schema; the value is narrowed to `Nat` here. -/
def pParseTag (input : List Char) (st : PState) : Except Err (Nat × PState) := do
  let st ← pExpectToken input st "["
  let (tagNumber, st) ← pParseNumber input st
  let st ← pExpectToken input st "]"
  .ok (tagNumber.toNat, st)

/-- `parseValue()`: number, quoted string, TRUE, FALSE, NULL or identifier. -/
def pParseValue (input : List Char) (st : PState) : Except Err (Value × PState) :=
  let st := skipWS input st
  if pCheckNumber input st then do
    let (n, st) ← pParseNumber input st
    .ok (.vInt n, st)
  else if pCheck input st ['"'] then do
    let (s, st) ← pParseQuoted input st
    .ok (.vStr s, st)
  else if pCheckKeyword input st "TRUE" then do
    let st ← pExpectKeyword input st "TRUE"
    .ok (.vBool true, st)
  else if pCheckKeyword input st "FALSE" then do
    let st ← pExpectKeyword input st "FALSE"
    .ok (.vBool false, st)
  else if pCheckKeyword input st "NULL" then do
    let st ← pExpectKeyword input st "NULL"
    .ok (.vNull, st)
  else do
    let (s, st) ← pParseIdentifier input st
    .ok (.vStr s, st)

/-- `parseConstraints()`: `SIZE ( n )` or a value / range constraint. -/
def pParseConstraints (input : List Char) (st : PState) :
    Except Err (Constraints × PState) := do
  let st ← pExpectToken input st "("
  let (constraints, st) ←
    if pCheckKeyword input st "SIZE" then do
      let st ← pExpectKeyword input st "SIZE"
      let st ← pExpectToken input st "("
      let (size, st) ← pParseNumber input st
      let st ← pExpectToken input st ")"
      pure (({ size := some size } : Constraints), st)
    else do
      let (mn, st) ← pParseNumber input st
      if pCheck input st ['.'] then do
        let st ← pExpectToken input st "."
        let st ← pExpectToken input st "."
        let (mx, st) ← pParseNumber input st
        pure (({ range := some (mn, mx) } : Constraints), st)
      else
        pure (({ value := some mn } : Constraints), st)
  let st ← pExpectToken input st ")"
  .ok (constraints, st)

/-- The `{ ...(type.constraints || {}), ...constraints }` object spread:
fields present in the new bag override, the rest survive. -/
def mergeConstraints (old new : Constraints) : Constraints :=
  { definedType := new.definedType.orElse fun _ => old.definedType
    values := new.values.orElse fun _ => old.values
    size := new.size.orElse fun _ => old.size
    range := new.range.orElse fun _ => old.range
    value := new.value.orElse fun _ => old.value }

/-- A fresh leaf `ParsedType` (`{ name: '', type: t }`). -/
def leafParsed (t : String) : ParsedType :=
  .mk "" t none false none none none none none

/-- Replace the constraints bag (`{ ...type, constraints }`). -/
def ParsedType.withConstraints : ParsedType → Option Constraints → ParsedType
  | .mk n t tg o d _ m e c, cons => .mk n t tg o d cons m e c

/-- `{ ...type, name }` in `parseTypeAssignment`. -/
def ParsedType.withName : ParsedType → String → ParsedType
  | .mk _ t tg o d cons m e c, n => .mk n t tg o d cons m e c

/-- `{ ...type, name, tag, optional, default }` in `parseSequenceMember`. -/
def ParsedType.withMemberInfo : ParsedType → String → Option Nat → Bool → Option Value →
    ParsedType
  | .mk _ t _ _ _ cons m e c, n, tg, o, d => .mk n t tg o d cons m e c

/-- `{ ...type, name, tag }` in `parseChoiceAlternative`. -/
def ParsedType.withAltInfo : ParsedType → String → Option Nat → ParsedType
  | .mk _ t _ o d cons m e c, n, tg => .mk n t tg o d cons m e c

/-- `parseIntegerType()` (and its BOOLEAN / NULL siblings via `leafParsed`). -/
def pParseIntegerType (input : List Char) (st : PState) :
    Except Err (ParsedType × PState) := do
  let st ← pExpectKeyword input st "INTEGER"
  .ok (leafParsed "INTEGER", st)

def pParseBooleanType (input : List Char) (st : PState) :
    Except Err (ParsedType × PState) := do
  let st ← pExpectKeyword input st "BOOLEAN"
  .ok (leafParsed "BOOLEAN", st)

def pParseOctetStringType (input : List Char) (st : PState) :
    Except Err (ParsedType × PState) := do
  let st ← pExpectKeyword input st "OCTET"
  let st := skipWS input st
  let st ← pExpectKeyword input st "STRING"
  .ok (leafParsed "OCTET_STRING", st)

def pParseNullType (input : List Char) (st : PState) :
    Except Err (ParsedType × PState) := do
  let st ← pExpectKeyword input st "NULL"
  .ok (leafParsed "NULL", st)

/-- The entry loop of `parseEnumeratedType`: identifiers with optional
explicit numbers, auto-numbered from the previous value plus one. -/
def enumValuesLoopF (input : List Char) :
    Nat → PState → List (String × Int) → Int → Except Err (List (String × Int) × PState)
  | 0, _, _, _ => .error (.asn1Err "parser fuel exhausted")
  | fuel + 1, st, acc, autoValue =>
    if ¬pCheck input st [rbraceC] ∧ ¬pIsAtEnd input st then do
      let (name, st) ← pParseIdentifier input st
      let (value, st) ←
        if pCheck input st ['('] then do
          let st ← pExpectToken input st "("
          let (v, st) ← pParseNumber input st
          let st ← pExpectToken input st ")"
          pure (v, st)
        else pure (autoValue, st)
      let st ← if pCheck input st [','] then pExpectToken input st "," else pure st
      enumValuesLoopF input fuel st (acc ++ [(name, value)]) (value + 1)
    else .ok (acc, st)

/-- `parseEnumeratedType()`. -/
def pParseEnumeratedType (input : List Char) (st : PState) :
    Except Err (ParsedType × PState) := do
  let st ← pExpectKeyword input st "ENUMERATED"
  let st ← pExpectToken input st lbraceS
  let (values, st) ← enumValuesLoopF input (input.length + 1) st [] 0
  let st ← pExpectToken input st rbraceS
  .ok ((leafParsed "ENUMERATED").withConstraints (some { values := some values }), st)

mutual

/-- `parseType()`: dispatch on the leading keyword, then attach a trailing
constraint if an opening parenthesis follows. -/
def pParseType (input : List Char) : Nat → PState → Except Err (ParsedType × PState)
  | 0, _ => .error (.asn1Err "parser fuel exhausted")
  | fuel + 1, st => do
    let st := skipWS input st
    let (type, st) ←
      if pCheckKeyword input st "INTEGER" then pParseIntegerType input st
      else if pCheckKeyword input st "BOOLEAN" then pParseBooleanType input st
      else if pCheckKeyword input st "OCTET" then pParseOctetStringType input st
      else if pCheckKeyword input st "SEQUENCE" then pParseSequenceType input fuel st
      else if pCheckKeyword input st "CHOICE" then pParseChoiceType input fuel st
      else if pCheckKeyword input st "ENUMERATED" then pParseEnumeratedType input st
      else if pCheckKeyword input st "NULL" then pParseNullType input st
      else
        let st := skipWS input st
        if ¬pIsAlpha (pPeek input st) then pErr st "Expected type reference (identifier)"
        else do
          let (typeName, st) ← pParseIdentifier input st
          pure ((leafParsed "DEFINED").withConstraints
            (some { definedType := some typeName }), st)
    let st := skipWS input st
    if pCheck input st ['('] then do
      let (constraints, st) ← pParseConstraints input st
      .ok (type.withConstraints
        (some (mergeConstraints (type.constraints.getD {}) constraints)), st)
    else
      .ok (type, st)

/-- `parseSequenceType()`: the source expects `{` immediately after the
`SEQUENCE` keyword; there is no `OF` branch. -/
def pParseSequenceType (input : List Char) : Nat → PState → Except Err (ParsedType × PState)
  | 0, _ => .error (.asn1Err "parser fuel exhausted")
  | fuel + 1, st => do
    let st ← pExpectKeyword input st "SEQUENCE"
    let st ← pExpectToken input st lbraceS
    let (members, st) ← seqMembersLoopF input fuel st []
    let st ← pExpectToken input st rbraceS
    .ok ((ParsedType.mk "" "SEQUENCE" none false none none (some members) none none), st)

/-- The member loop of `parseSequenceType`. -/
def seqMembersLoopF (input : List Char) :
    Nat → PState → List ParsedType → Except Err (List ParsedType × PState)
  | 0, _, _ => .error (.asn1Err "parser fuel exhausted")
  | fuel + 1, st, acc =>
    if ¬pCheck input st [rbraceC] ∧ ¬pIsAtEnd input st then do
      let (member, st) ← pParseSequenceMember input fuel st
      let st ← if pCheck input st [','] then pExpectToken input st "," else pure st
      seqMembersLoopF input fuel st (acc ++ [member])
    else .ok (acc, st)

/-- `parseSequenceMember()`: name, optional `[n]` tag, type, then
`OPTIONAL` or `DEFAULT value`. -/
def pParseSequenceMember (input : List Char) :
    Nat → PState → Except Err (ParsedType × PState)
  | 0, _ => .error (.asn1Err "parser fuel exhausted")
  | fuel + 1, st => do
    let (name, st) ← pParseIdentifier input st
    let st := skipWS input st
    let (tag, st) ←
      if pCheck input st ['['] then do
        let (t, st) ← pParseTag input st
        pure ((some t : Option Nat), skipWS input st)
      else pure ((none : Option Nat), st)
    let (type, st) ← pParseType input fuel st
    let st := skipWS input st
    if pCheckKeyword input st "OPTIONAL" then do
      let st ← pExpectKeyword input st "OPTIONAL"
      .ok (type.withMemberInfo name tag true none, st)
    else if pCheckKeyword input st "DEFAULT" then do
      let st ← pExpectKeyword input st "DEFAULT"
      let (defaultValue, st) ← pParseValue input st
      .ok (type.withMemberInfo name tag false (some defaultValue), st)
    else
      .ok (type.withMemberInfo name tag false none, st)

/-- `parseChoiceType()`. -/
def pParseChoiceType (input : List Char) : Nat → PState → Except Err (ParsedType × PState)
  | 0, _ => .error (.asn1Err "parser fuel exhausted")
  | fuel + 1, st => do
    let st ← pExpectKeyword input st "CHOICE"
    let st ← pExpectToken input st lbraceS
    let (choices, st) ← choiceAltsLoopF input fuel st []
    let st ← pExpectToken input st rbraceS
    .ok ((ParsedType.mk "" "CHOICE" none false none none none none (some choices)), st)

/-- The alternative loop of `parseChoiceType`. -/
def choiceAltsLoopF (input : List Char) :
    Nat → PState → List ParsedType → Except Err (List ParsedType × PState)
  | 0, _, _ => .error (.asn1Err "parser fuel exhausted")
  | fuel + 1, st, acc =>
    if ¬pCheck input st [rbraceC] ∧ ¬pIsAtEnd input st then do
      let (choice, st) ← pParseChoiceAlternative input fuel st
      let st ← if pCheck input st [','] then pExpectToken input st "," else pure st
      choiceAltsLoopF input fuel st (acc ++ [choice])
    else .ok (acc, st)

/-- `parseChoiceAlternative()`: name, optional `[n]` tag, type. -/
def pParseChoiceAlternative (input : List Char) :
    Nat → PState → Except Err (ParsedType × PState)
  | 0, _ => .error (.asn1Err "parser fuel exhausted")
  | fuel + 1, st => do
    let (name, st) ← pParseIdentifier input st
    let st := skipWS input st
    let (tag, st) ←
      if pCheck input st ['['] then do
        let (t, st) ← pParseTag input st
        pure ((some t : Option Nat), skipWS input st)
      else pure ((none : Option Nat), st)
    let (type, st) ← pParseType input fuel st
    .ok (type.withAltInfo name tag, st)

end

/-- `parseTypeAssignment()`: `Identifier ::= type`. -/
def pParseTypeAssignment (input : List Char) (fuel : Nat) (st : PState) :
    Except Err (ParsedType × PState) := do
  let (name, st) ← pParseIdentifier input st
  let st ← pExpectToken input st "::="
  let (type, st) ← pParseType input fuel st
  .ok (type.withName name, st)

/-- The assignment loop of `parseModule`, filling the module's type table. -/
def moduleTypesLoopF (input : List Char) :
    Nat → PState → List (String × ParsedType) → Except Err (List (String × ParsedType) × PState)
  | 0, _, _ => .error (.asn1Err "parser fuel exhausted")
  | fuel + 1, st, acc =>
    if ¬pCheckKeyword input st "END" ∧ ¬pIsAtEnd input st then do
      let (typeAssignment, st) ← pParseTypeAssignment input fuel st
      let st := skipWS input st
      moduleTypesLoopF input fuel st (mapSet acc typeAssignment.name typeAssignment)
    else .ok (acc, st)

/-- `parseModule()`: `Name DEFINITIONS ::= BEGIN assignments END`. -/
def pParseModule (input : List Char) (fuel : Nat) (st : PState) :
    Except Err (ParsedModuleL × PState) := do
  let (moduleName, st) ← pParseIdentifier input st
  let st ← pExpectKeyword input st "DEFINITIONS"
  let st ← pExpectToken input st "::="
  let st ← pExpectKeyword input st "BEGIN"
  let st := skipWS input st
  let (types, st) ← moduleTypesLoopF input fuel st []
  let st ← pExpectKeyword input st "END"
  .ok ((moduleName, types), st)

/-- The module loop of `parse()`. -/
def parseModulesLoopF (input : List Char) :
    Nat → PState → List ParsedModuleL → Except Err (List ParsedModuleL)
  | 0, _, _ => .error (.asn1Err "parser fuel exhausted")
  | fuel + 1, st, acc =>
    if ¬pIsAtEnd input st then do
      let (m, st) ← pParseModule input fuel st
      let st := skipWS input st
      parseModulesLoopF input fuel st (acc ++ [m])
    else .ok acc

/-- `Asn1Parser.parse(content)`. -/
def parseF (fuel : Nat) (content : String) : Except Err (List ParsedModuleL) :=
  let input := content.data
  let st := skipWS input ⟨0, 1, 1⟩
  parseModulesLoopF input fuel st []

/-- `compileString(content)`: parse then compile, wrapping any non-compile
error as a `CompileError`. -/
def compileStringF (fuel : Nat) (content : String) : Except Err Specification :=
  match (do
    let parsedModules ← parseF fuel content
    compileF fuel parsedModules : Except Err Specification) with
  | .ok s => .ok s
  | .error (.compileErr m) => .error (.compileErr m)
  | .error e => .error (.compileErr ("Compilation failed: " ++ errMessage e))

/-! ## Small helper lemmas shared by the proofs -/

lemma except_ok_bind {α β : Type} (a : α) (f : α → Except Err β) :
    (Except.ok a >>= f) = f a := rfl

lemma except_error_bind {α β : Type} (e : Err) (f : α → Except Err β) :
    ((Except.error e : Except Err α) >>= f) = Except.error e := rfl

/-! ## Concrete schemas and parse trees used by the theorems -/

/-- A schema whose type side is `SEQUENCE OF INTEGER`. -/
def schemaSeqOf : String := "M DEFINITIONS ::= BEGIN T ::= SEQUENCE OF INTEGER END"

/-- The same schema with a member list instead of `OF`. -/
def schemaSeqBraces : String :=
  "M DEFINITIONS ::= BEGIN T ::= SEQUENCE " ++ lbraceS ++ " x INTEGER " ++ rbraceS ++ " END"

/-- A hand-built `SEQUENCE_OF` parse tree (the shape the compiler's
`SEQUENCE_OF` branch expects). -/
def seqOfParsedTree : ParsedType :=
  .mk "T" "SEQUENCE_OF" none false none none none (some (leafParsed "INTEGER")) none

/-- A top-level `T ::= INTEGER` declaration. -/
def intDecl : ParsedType := .mk "T" "INTEGER" none false none none none none none

/-- Two modules both declaring `T`. -/
def modsTwo : List ParsedModuleL := [("M1", [("T", intDecl)]), ("M2", [("T", intDecl)])]

/-- Three modules all declaring `T`. -/
def modsThree : List ParsedModuleL :=
  [("M1", [("T", intDecl)]), ("M2", [("T", intDecl)]), ("M3", [("T", intDecl)])]

/-- A one-member SEQUENCE declaration whose member `x` carries the given
context-specific tag. -/
def seqTagged (t : Option Nat) : ParsedType :=
  .mk "S" "SEQUENCE" none false none none
    (some [.mk "x" "INTEGER" t false none none none none none]) none none

/-- A module declaring the tagged SEQUENCE. -/
def modTagged (t : Option Nat) : List ParsedModuleL := [("M", [("S", seqTagged t)])]

/-- The specification produced by a successful compile (dummy otherwise);
used to name compiled specifications inside closed witness statements. -/
def getSpecD : Except Err Specification → Specification
  | .ok s => s
  | .error _ => ⟨[], []⟩

/-! ## Claims -/

/-- Claim C1 (code_bug): the INTEGER codec does not round-trip every value.
Encoding −1 produces `02 02 FF 00` (not two's complement for −1), and
decoding that very output yields −257, not −1 — the repository's own test
suite remarks on exactly this value.  (Negative values `v ≡ −1 (mod 256)`
all fail this way; other integers round-trip.) -/
theorem integer_roundtrip_bug_minus_one :
    (IntegerType "T").encode (.vInt (-1)) = .ok [0x02, 0x02, 0xff, 0x00] ∧
    ((IntegerType "T").encode (.vInt (-1)) >>= fun bytes => (IntegerType "T").decode bytes 0)
      = .ok (.vInt (-257), 4) := by
  exact ⟨rfl, rfl⟩

/-- Claim C2 (code_bug): encoding INTEGER −42 yields `02 01 D7`, not the
claimed (and X.690-correct) `02 01 D6`; and decoding `02 01 D6` yields −43,
not −42.  The negative-branch two's complement is off by one in both
directions, so −42 still round-trips through this codec, but the wire bytes
disagree with BER and with the Python implementation the library claims
compatibility with. -/
theorem integer_encode_minus42_bug :
    (IntegerType "T2").encode (.vInt (-42)) = .ok [0x02, 0x01, 0xd7] ∧
    [0x02, 0x01, 0xd7] ≠ [0x02, 0x01, 0xd6] ∧
    (IntegerType "T2").decode [0x02, 0x01, 0xd6] 0 = .ok (.vInt (-43), 3) := by
  exact ⟨rfl, by decide, rfl⟩

/-- Claim C3 (code_bug): `parseSequenceType` consumes `SEQUENCE` and then
immediately expects `{` — there is no `OF` branch — so a schema using
`SEQUENCE OF INTEGER` fails with a ParseError while the braces form parses;
yet the compiler fully supports `SEQUENCE_OF` parse trees, which the parser
can never produce. -/
theorem parser_rejects_sequence_of :
    (parseF 1000 schemaSeqOf).isOk = false ∧
    (parseF 1000 schemaSeqOf)
      = .error (.parseErr "Expected \x7b at line 1, column 10") ∧
    (parseF 1000 schemaSeqBraces).isOk = true ∧
    (compileTypeF 10 ⟨[], []⟩ [] "M" seqOfParsedTree >>= fun t => t.encode (.vArr [.vInt 1]))
      = .ok [0x30, 0x03, 0x02, 0x01, 0x01] := by
  exact ⟨rfl, rfl, rfl, rfl⟩

/-- Claim C4 counterexample: with three modules all declaring `T`, the
global-table rule (delete on collision, insert when absent) re-inserts `T`
at the third declaration, so the bare-name lookup succeeds instead of
failing with "not found". -/
theorem global_collision_three_modules_present :
    (compileF 10 modsThree >>= fun s => s.encode "T" (.vInt 5)) = .ok [0x02, 0x01, 0x05] ∧
    (mapGet (getSpecD (compileF 10 modsThree)).types "T").isSome = true := by
  exact ⟨rfl, rfl⟩

/-- Claim C5 counterexample: compiling a SEQUENCE whose member `x` declares
the context-specific tag `[0]` yields a codec that encodes the member with
its intrinsic universal INTEGER tag `02` — the output contains no
constructed context-specific octet `A0` — and the bytes coincide with the
compilation where no tag is declared at all. -/
theorem sequence_member_tag_not_applied :
    (compileF 10 (modTagged (some 0)) >>= fun s => s.encode "S" (.vObj [("x", .vInt 1)]))
      = .ok [0x30, 0x03, 0x02, 0x01, 0x01] ∧
    (compileF 10 (modTagged none) >>= fun s => s.encode "S" (.vObj [("x", .vInt 1)]))
      = .ok [0x30, 0x03, 0x02, 0x01, 0x01] ∧
    0xa0 ∉ [0x30, 0x03, 0x02, 0x01, 0x01] := by
  exact ⟨rfl, rfl, by decide⟩

/-- Replace a parse node's own context-specific tag field. -/
def ParsedType.setTag : ParsedType → Option Nat → ParsedType
  | .mk n t _ o d cons m e c, tg => .mk n t tg o d cons m e c

/-- `compileType` never reads its argument's top-level `tag` field. -/
lemma compileTypeF_setTag (fuel : Nat) (st : CompilerState) (res : List String)
    (mod : String) (p : ParsedType) (tg : Option Nat) :
    compileTypeF fuel st res mod (p.setTag tg) = compileTypeF fuel st res mod p := by
  cases fuel with
  | zero => rfl
  | succ fuel => cases p with | mk n t _ o d cons m e c => rfl

/-- Member compilation is unchanged when every member's tag is erased. -/
lemma compileMembersF_setTags (st : CompilerState) (res : List String) (mod : String) :
    ∀ (fuel : Nat) (ms : List ParsedType),
      compileMembersF fuel st res mod (ms.map (ParsedType.setTag · none)) =
        compileMembersF fuel st res mod ms := by
  intro fuel
  induction fuel with
  | zero => intro ms; rfl
  | succ fuel ih =>
    intro ms
    cases ms with
    | nil => rfl
    | cons m rest =>
      simp only [List.map, compileMembersF, compileTypeF_setTag, ih]
      cases m with | mk n t tg o d cons mem e c => rfl

/-- Claim C5 amended: the compiler ignores context-specific tags on SEQUENCE
members — compiling a SEQUENCE is identical to compiling it with every
member tag erased, so no member ever receives the CHOICE-style constructed
context-specific wrapper. -/
theorem compile_ignores_member_tags (fuel : Nat) (st : CompilerState) (res : List String)
    (mod name : String) (tg : Option Nat) (o : Bool) (d : Option Value)
    (cons : Option Constraints) (e : Option ParsedType) (c : Option (List ParsedType))
    (ms : List ParsedType) :
    compileTypeF fuel st res mod
        (.mk name "SEQUENCE" tg o d cons (some (ms.map (ParsedType.setTag · none))) e c) =
      compileTypeF fuel st res mod (.mk name "SEQUENCE" tg o d cons (some ms) e c) := by
  cases fuel with
  | zero => rfl
  | succ fuel =>
    simp only [compileTypeF, ParsedType.members, ParsedType.name, ParsedType.type,
      parsedTypeName, compileMembersF_setTags]

/-- The unique-key invariant every JavaScript `Map` satisfies. -/
def keysNodup {κ α : Type} [DecidableEq κ] (m : List (κ × α)) : Prop :=
  (m.map Prod.fst).Nodup

lemma mapGet_set_self {κ α : Type} [DecidableEq κ] (m : List (κ × α)) (k : κ) (v : α) :
    mapGet (mapSet m k v) k = some v := by
  induction m with
  | nil => simp [mapSet, mapGet]
  | cons p rest ih =>
    by_cases h : p.1 = k
    · simp [mapSet, mapGet, h]
    · simp [mapSet, mapGet, h, ih]

lemma mapGet_set_ne {κ α : Type} [DecidableEq κ] (m : List (κ × α)) (k q : κ) (v : α)
    (h : q ≠ k) : mapGet (mapSet m k v) q = mapGet m q := by
  induction m with
  | nil => simp [mapSet, mapGet, Ne.symm h]
  | cons p rest ih =>
    by_cases hp : p.1 = k
    · simp [mapSet, mapGet, hp, Ne.symm h]
    · simp [mapSet, mapGet, hp, ih]

lemma mapGet_delete_ne {κ α : Type} [DecidableEq κ] (m : List (κ × α)) (k q : κ)
    (h : q ≠ k) : mapGet (mapDelete m k) q = mapGet m q := by
  induction m with
  | nil => simp [mapDelete]
  | cons p rest ih =>
    by_cases hp : p.1 = k
    · simp [mapDelete, mapGet, hp, Ne.symm h]
    · simp [mapDelete, mapGet, hp, ih]

lemma mapGet_none_of_not_mem {κ α : Type} [DecidableEq κ] (m : List (κ × α)) (k : κ)
    (h : k ∉ m.map Prod.fst) : mapGet m k = none := by
  induction m with
  | nil => rfl
  | cons p rest ih =>
    simp only [List.map, List.mem_cons, not_or] at h
    have h1 : ¬ p.1 = k := fun hh => h.1 hh.symm
    simp [mapGet, h1, ih h.2]

lemma mapGet_delete_self {κ α : Type} [DecidableEq κ] (m : List (κ × α)) (k : κ)
    (h : keysNodup m) : mapGet (mapDelete m k) k = none := by
  induction m with
  | nil => rfl
  | cons p rest ih =>
    simp only [keysNodup, List.map, List.nodup_cons] at h
    by_cases hp : p.1 = k
    · subst hp
      show mapGet (mapDelete (p :: rest) p.1) p.1 = none
      simp only [mapDelete, if_pos rfl]
      exact mapGet_none_of_not_mem rest p.1 h.1
    · simp only [mapDelete, if_neg hp, mapGet, hp, if_false]
      exact ih h.2

lemma keys_mapSet_sub {κ α : Type} [DecidableEq κ] (m : List (κ × α)) (k q : κ) (v : α)
    (h : q ∈ (mapSet m k v).map Prod.fst) : q ∈ m.map Prod.fst ∨ q = k := by
  induction m with
  | nil =>
    simp only [mapSet, List.map, List.mem_cons, List.not_mem_nil, or_false] at h
    exact Or.inr h
  | cons p rest ih =>
    by_cases hp : p.1 = k
    · simp only [mapSet, if_pos hp, List.map, List.mem_cons] at h
      rcases h with h | h
      · exact Or.inl (List.mem_cons.mpr (Or.inl h))
      · exact Or.inl (List.mem_cons.mpr (Or.inr h))
    · simp only [mapSet, if_neg hp, List.map, List.mem_cons] at h
      rcases h with h | h
      · exact Or.inl (List.mem_cons.mpr (Or.inl h))
      · rcases ih h with h2 | h2
        · exact Or.inl (List.mem_cons.mpr (Or.inr h2))
        · exact Or.inr h2

lemma keys_mapDelete_sub {κ α : Type} [DecidableEq κ] (m : List (κ × α)) (k q : κ)
    (h : q ∈ (mapDelete m k).map Prod.fst) : q ∈ m.map Prod.fst := by
  induction m with
  | nil => exact h
  | cons p rest ih =>
    by_cases hp : p.1 = k
    · simp only [mapDelete, if_pos hp] at h
      exact List.mem_cons.mpr (Or.inr h)
    · simp only [mapDelete, if_neg hp, List.map, List.mem_cons] at h
      rcases h with h | h
      · exact List.mem_cons.mpr (Or.inl h)
      · exact List.mem_cons.mpr (Or.inr (ih h))

lemma keysNodup_set {κ α : Type} [DecidableEq κ] (m : List (κ × α)) (k : κ) (v : α)
    (h : keysNodup m) : keysNodup (mapSet m k v) := by
  induction m with
  | nil => simp [keysNodup, mapSet]
  | cons p rest ih =>
    simp only [keysNodup, List.map, List.nodup_cons] at h ⊢
    by_cases hp : p.1 = k
    · simp only [mapSet, if_pos hp, List.map, List.nodup_cons]
      exact ⟨h.1, h.2⟩
    · simp only [mapSet, if_neg hp, List.map, List.nodup_cons]
      refine ⟨fun hmem => ?_, ih h.2⟩
      rcases keys_mapSet_sub rest k p.1 v hmem with h2 | h2
      · exact h.1 h2
      · exact hp h2

lemma keysNodup_delete {κ α : Type} [DecidableEq κ] (m : List (κ × α)) (k : κ)
    (h : keysNodup m) : keysNodup (mapDelete m k) := by
  induction m with
  | nil => exact h
  | cons p rest ih =>
    simp only [keysNodup, List.map, List.nodup_cons] at h
    by_cases hp : p.1 = k
    · simp only [mapDelete, if_pos hp]
      exact h.2
    · simp only [mapDelete, if_neg hp, keysNodup, List.map, List.nodup_cons]
      exact ⟨fun hmem => h.1 (keys_mapDelete_sub rest k p.1 hmem), ih h.2⟩



lemma count_parity_succ (c : Nat) : ((c + 1) % 2 == 1) = !(c % 2 == 1) := by
  rcases Nat.mod_two_eq_zero_or_one c with h | h
  · simp [Nat.add_mod, h]
  · simp [Nat.add_mod, h]

/-- Across one module's type loop, presence of `T` in the global table
toggles once per declaration of `T`. -/
lemma moduleTypes_parity (T : String) (fuel : Nat) (mod : String) :
    ∀ (types : List (String × ParsedType)) (st st' : CompilerState),
      keysNodup st.globalTypes →
      compileModuleTypesF fuel mod types st = .ok st' →
      keysNodup st'.globalTypes ∧
      (mapGet st'.globalTypes T).isSome =
        ((mapGet st.globalTypes T).isSome).xor ((types.map Prod.fst).count T % 2 == 1) := by
  intro types
  induction types with
  | nil =>
    intro st st' hn hc
    simp only [compileModuleTypesF] at hc
    cases hc
    simpa using hn
  | cons tp rest ih =>
    obtain ⟨typeName, parsedType⟩ := tp
    intro st st' hn hc
    simp only [compileModuleTypesF] at hc
    rcases hcomp : compileTypeF fuel st [] mod parsedType with e | compiled
    · rw [hcomp, except_error_bind] at hc
      cases hc
    · rw [hcomp, except_ok_bind] at hc
      set g2 := if mapHas st.globalTypes typeName then mapDelete st.globalTypes typeName
                else mapSet st.globalTypes typeName compiled with hg2
      have hn2 : keysNodup g2 := by
        rw [hg2]
        by_cases hhas : mapHas st.globalTypes typeName
        · simp only [hhas, if_true]
          exact keysNodup_delete _ _ hn
        · simp only [hhas, if_false, Bool.false_eq_true]
          exact keysNodup_set _ _ _ hn
      obtain ⟨hn', hx⟩ := ih _ st' hn2 hc
      refine ⟨hn', ?_⟩
      have hproj : ∀ (a : List (String × List (String × Asn1TypeI)))
          (b : List (String × Asn1TypeI)), (CompilerState.mk a b).globalTypes = b :=
        fun _ _ => rfl
      rw [hx, hproj]
      by_cases hkT : typeName = T
      · subst hkT
        by_cases hhas : mapHas st.globalTypes typeName
        · have hnone : mapGet g2 typeName = none := by
            rw [hg2]; simp only [hhas, if_true]
            exact mapGet_delete_self _ _ hn
          have hold : (mapGet st.globalTypes typeName).isSome = true := hhas
          rcases Nat.mod_two_eq_zero_or_one ((List.map Prod.fst rest).count typeName)
            with hpar | hpar <;>
            simp [hnone, hold, List.count_cons, hpar, Nat.add_mod]
        · have hsome : mapGet g2 typeName = some compiled := by
            rw [hg2]; simp only [hhas, if_false, Bool.false_eq_true]
            exact mapGet_set_self _ _ _
          have hold : (mapGet st.globalTypes typeName).isSome = false := by
            simp only [mapHas] at hhas
            simpa using hhas
          rcases Nat.mod_two_eq_zero_or_one ((List.map Prod.fst rest).count typeName)
            with hpar | hpar <;>
            simp [hsome, hold, List.count_cons, hpar, Nat.add_mod]
      · have hsame : mapGet g2 T = mapGet st.globalTypes T := by
          rw [hg2]
          by_cases hhas : mapHas st.globalTypes typeName
          · simp only [hhas, if_true]
            exact mapGet_delete_ne _ _ _ (fun hh => hkT hh.symm)
          · simp only [hhas, if_false, Bool.false_eq_true]
            exact mapGet_set_ne _ _ _ _ (fun hh => hkT hh.symm)
        simp [hsame, List.count_cons, hkT]



lemma parity_add (a b : Nat) : ((a + b) % 2 == 1) = ((a % 2 == 1)).xor ((b % 2 == 1)) := by
  rcases Nat.mod_two_eq_zero_or_one a with ha | ha <;>
  rcases Nat.mod_two_eq_zero_or_one b with hb | hb <;>
  simp [Nat.add_mod, ha, hb]

/-- Number of declarations of the name `T` across all modules. -/
def declCount (pms : List ParsedModuleL) (T : String) : Nat :=
  (((pms.map Prod.snd).flatten).map Prod.fst).count T

/-- Across the whole second pass, presence of `T` in the global table
equals the parity of the number of declarations of `T`. -/
lemma modules_parity (T : String) (fuel : Nat) :
    ∀ (pms : List ParsedModuleL) (st st' : CompilerState),
      keysNodup st.globalTypes →
      compileModulesF fuel pms st = .ok st' →
      keysNodup st'.globalTypes ∧
      (mapGet st'.globalTypes T).isSome =
        ((mapGet st.globalTypes T).isSome).xor (declCount pms T % 2 == 1) := by
  intro pms
  induction pms with
  | nil =>
    intro st st' hn hc
    simp only [compileModulesF] at hc
    cases hc
    simpa [declCount] using hn
  | cons pm rest ih =>
    obtain ⟨mod, types⟩ := pm
    intro st st' hn hc
    simp only [compileModulesF] at hc
    by_cases hm : mapHas st.modules mod
    · simp only [hm, not_true, if_false, Bool.not_true, Bool.false_eq_true, ite_false] at hc
      rcases hmt : compileModuleTypesF fuel mod types st with e | st2
      · rw [hmt, except_error_bind] at hc
        cases hc
      · rw [hmt, except_ok_bind] at hc
        obtain ⟨hn2, hx2⟩ := moduleTypes_parity T fuel mod types st st2 hn hmt
        obtain ⟨hn', hx⟩ := ih st2 st' hn2 hc
        refine ⟨hn', ?_⟩
        rw [hx, hx2]
        simp [declCount, List.count_append, parity_add, Bool.xor_assoc]
    · simp only [hm, not_false_iff, if_true, Bool.not_false, ite_true] at hc
      cases hc

/-- Claim C4 amended: after a successful compile, a type name is absent from
the global table exactly when an even number of declarations of it were
processed (the collision rule deletes on an even occurrence and re-inserts
on an odd one), and an absent name makes `Specification.encode` fail with
the not-found CompileError.  In particular two modules hide the name but a
third re-exposes it. -/
theorem global_collision_parity (fuel : Nat) (pms : List ParsedModuleL)
    (spec : Specification) (T : String)
    (hc : compileF fuel pms = .ok spec) :
    (mapGet spec.types T = none ↔ declCount pms T % 2 = 0) ∧
    (mapGet spec.types T = none → ∀ v, spec.encode T v =
      .error (.compileErr ("Type " ++ T ++ " not found"))) := by
  have henc : mapGet spec.types T = none → ∀ v, spec.encode T v =
      .error (.compileErr ("Type " ++ T ++ " not found")) := by
    intro h v
    simp [Specification.encode, h]
  refine ⟨?_, henc⟩
  simp only [compileF] at hc
  rcases hcm : compileModulesF fuel pms
      { modules := pms.foldl (fun m pm => mapSet m pm.1 []) [], globalTypes := [] }
    with e | st
  · rw [hcm, except_error_bind] at hc
    cases hc
  · rw [hcm, except_ok_bind] at hc
    cases hc
    obtain ⟨_, hx⟩ := modules_parity T fuel pms _ st (by simp [keysNodup]) hcm
    simp only [mapGet, Option.isSome_none, Bool.false_xor] at hx
    rcases hg : mapGet st.globalTypes T with _ | v
    · rw [hg] at hx
      simp only [Option.isSome_none] at hx
      have : declCount pms T % 2 ≠ 1 := by
        intro hh
        rw [hh] at hx
        simp at hx
      constructor
      · intro _
        omega
      · intro _
        rfl
    · rw [hg] at hx
      simp only [Option.isSome_some] at hx
      have : declCount pms T % 2 = 1 := by
        rcases Nat.mod_two_eq_zero_or_one (declCount pms T) with hh | hh
        · rw [hh] at hx
          simp at hx
        · exact hh
      constructor
      · intro hn2
        cases hn2
      · intro hh
        omega

/-- Witness for the amended C4 at two modules declaring `T`: the name is
absent and bare-name encoding fails with the not-found error. -/
theorem global_collision_parity_witness :
    (compileF 10 modsTwo = .ok (getSpecD (compileF 10 modsTwo))) ∧
    mapGet (getSpecD (compileF 10 modsTwo)).types "T" = none ∧
    (getSpecD (compileF 10 modsTwo)).encode "T" (.vInt 5) =
      .error (.compileErr "Type T not found") := by
  have h := global_collision_parity 10 modsTwo (getSpecD (compileF 10 modsTwo)) "T" rfl
  have hnone : mapGet (getSpecD (compileF 10 modsTwo)).types "T" = none := h.1.mpr (by decide)
  exact ⟨rfl, hnone, h.2 hnone (.vInt 5)⟩

/-- `toInt32` is the identity on the signed-positive 32-bit range. -/
lemma toInt32_eq_self (x : Int) (h0 : 0 ≤ x) (h31 : x < 2 ^ 31) : toInt32 x = x := by
  unfold toInt32
  have h1 : 0 ≤ x + 2 ^ 31 := by omega
  have h2 : x + 2 ^ 31 < 2 ^ 32 := by omega
  rw [Int.emod_eq_of_lt h1 h2]
  omega

/-- Big-endian base-256 accumulation from an initial value. -/
def beValFrom (acc : Nat) (bytes : List Nat) : Nat :=
  bytes.foldl (fun a b => a * 256 + b) acc

/-- The big-endian value of a byte sequence. -/
def beVal (bytes : List Nat) : Nat := beValFrom 0 bytes

lemma le_beValFrom : ∀ (l : List Nat) (a : Nat), a ≤ beValFrom a l := by
  intro l
  induction l with
  | nil => intro a; exact Nat.le_refl a
  | cons b rest ih =>
    intro a
    have h1 : a ≤ a * 256 + b := by
      have := Nat.mul_le_mul_left a (show 1 ≤ 256 by omega)
      omega
    exact Nat.le_trans h1 (ih (a * 256 + b))

/-- Indexing at a natural offset is plain list indexing. -/
lemma listGetI_natCast (data : List Nat) (n : Nat) : listGetI data (n : Int) = data[n]? := by
  unfold listGetI
  by_cases h : n < data.length
  · rw [dif_pos ⟨by omega, by simpa using h⟩]
    simp [List.getElem?_eq_getElem, h]
  · rw [dif_neg (by simp; omega)]
    rw [eq_comm, List.getElem?_eq_none_iff]
    omega

/-- The length-octet accumulation loop computes the big-endian value when
that value stays below 2^31 (so the 32-bit wrap is the identity). -/
lemma decodeLengthLoop_ok (data : List Nat) (off : Nat) :
    ∀ (rem i acc : Nat),
      off + i + rem ≤ data.length →
      (∀ x ∈ (data.drop (off + i)).take rem, x < 256) →
      beValFrom acc ((data.drop (off + i)).take rem) < 2 ^ 31 →
      decodeLengthLoop data (off : Int) rem i (acc : Int) =
        .ok ((beValFrom acc ((data.drop (off + i)).take rem) : Nat) : Int) := by
  intro rem
  induction rem with
  | zero =>
    intro i acc hlen hbytes hfit
    simp [decodeLengthLoop, beValFrom]
  | succ rem ih =>
    intro i acc hlen hbytes hfit
    have hidx : off + i < data.length := by omega
    have hdrop : data.drop (off + i) = data[off + i] :: data.drop (off + i + 1) :=
      List.drop_eq_getElem_cons hidx
    have htake : (data.drop (off + i)).take (rem + 1) =
        data[off + i] :: (data.drop (off + i + 1)).take rem := by
      rw [hdrop, List.take_succ_cons]
    set b := data[off + i] with hb
    have hbold : beValFrom acc ((data.drop (off + i)).take (rem + 1)) =
        beValFrom (acc * 256 + b) ((data.drop (off + i + 1)).take rem) := by
      rw [htake]; rfl
    have hblt : b < 256 := by
      apply hbytes
      rw [htake]
      exact List.mem_cons_self _ _
    have hacc : acc * 256 + b < 2 ^ 31 := by
      have := le_beValFrom ((data.drop (off + i + 1)).take rem) (acc * 256 + b)
      rw [hbold] at hfit
      omega
    have hget : listGetI data ((off : Int) + (i : Int)) = some b := by
      have : ((off : Int) + (i : Int)) = ((off + i : Nat) : Int) := by push_cast; ring
      rw [this, listGetI_natCast]
      exact List.getElem?_eq_getElem hidx
    simp only [decodeLengthLoop, hget]
    have ht32 : toInt32 ((acc : Int) * 256) = (acc : Int) * 256 := by
      apply toInt32_eq_self
      · positivity
      · push_cast
        omega
    rw [ht32]
    have hcast : (acc : Int) * 256 + (b : Int) = ((acc * 256 + b : Nat) : Int) := by
      push_cast; ring
    rw [hcast]
    have hshift : off + (i + 1) = off + i + 1 := by omega
    have hrec := ih (i + 1) (acc * 256 + b)
      (by omega)
      (by
        intro x hx
        apply hbytes
        rw [htake]
        rw [hshift] at hx
        exact List.mem_cons_of_mem _ hx)
      (by
        rw [hshift, ← hbold]
        exact hfit)
    rw [hshift] at hrec
    rw [hrec, hbold]



/-- Claim C7 amended: long-form length decoding rejects `k = 0` as
indefinite-length-unsupported, rejects `k > 4` as length-too-large, and for
`1 <= k <= 4` (with the octets available) returns the big-endian value of
the `k` length octets provided that value is below `2^31`; a larger value
wraps through JavaScript signed 32-bit arithmetic (see the
counterexample). -/
theorem decode_length_long_form (data : List Nat) (off k b : Nat)
    (hb : data[off]? = some b) (hform : b &&& 0x80 ≠ 0) (hk : b &&& 0x7f = k) :
    (k = 0 → decodeLength data off =
      .error (.decodeErr "Indefinite length not supported in this context" (some off))) ∧
    (4 < k → decodeLength data off = .error (.decodeErr "Length too large" (some off))) ∧
    (1 ≤ k → k ≤ 4 → off + k < data.length →
      (∀ x ∈ (data.drop (off + 1)).take k, x < 256) →
      beVal ((data.drop (off + 1)).take k) < 2 ^ 31 →
      decodeLength data off =
        .ok ⟨(beVal ((data.drop (off + 1)).take k) : Int), k + 1⟩) := by
  have hlt : off < data.length := by
    rcases List.getElem?_eq_some.mp hb with ⟨h, _⟩
    exact h
  have hguard : ¬ ((off : Int) ≥ (data.length : Int)) := by omega
  have hget : listGetI data (off : Int) = some b := by
    rw [listGetI_natCast]; exact hb
  refine ⟨?_, ?_, ?_⟩
  · intro hk0
    simp only [decodeLength, if_neg hguard, hget, if_neg hform, hk, hk0]
    simp
  · intro hk4
    have hne : k ≠ 0 := by omega
    simp only [decodeLength, if_neg hguard, hget, if_neg hform, hk, if_neg hne, if_pos hk4]
  · intro h1 h4 hlen hbytes hfit
    have hne : k ≠ 0 := by omega
    have hnot4 : ¬ (4 < k) := by omega
    have hbound : ¬ ((off : Int) + (k : Int) ≥ (data.length : Int)) := by omega
    have hloop := decodeLengthLoop_ok data off k 1 0 (by omega) hbytes (by
      show beValFrom 0 _ < 2 ^ 31
      exact hfit)
    simp only [decodeLength, if_neg hguard, hget, if_neg hform, hk, if_neg hne, if_neg hnot4,
      if_neg hbound]
    rw [show ((0 : Nat) : Int) = (0 : Int) from rfl] at hloop
    rw [hloop, except_ok_bind]
    rfl

/-- Claim C7 counterexample: the four length octets `FF FF FF FF` have
big-endian value 4294967295 but decode to the wrapped length −1. -/
theorem decode_length_wraps_32bit :
    decodeLength [0x84, 0xff, 0xff, 0xff, 0xff] 0 = .ok ⟨-1, 5⟩ ∧
    beVal [0xff, 0xff, 0xff, 0xff] = 4294967295 ∧ (-1 : Int) ≠ 4294967295 :=
  ⟨rfl, rfl, by decide⟩

/-- Witness for the amended C7 at its three concrete branches. -/
theorem decode_length_long_form_witness :
    (([0x80] : List Nat)[0]? = some 0x80 ∧ 0x80 &&& 0x80 ≠ 0 ∧ 0x80 &&& 0x7f = 0 ∧
      decodeLength [0x80] 0 =
        .error (.decodeErr "Indefinite length not supported in this context" (some 0))) ∧
    (([0x85, 1, 2, 3, 4, 5] : List Nat)[0]? = some 0x85 ∧ 4 < 0x85 &&& 0x7f ∧
      decodeLength [0x85, 1, 2, 3, 4, 5] 0 = .error (.decodeErr "Length too large" (some 0))) ∧
    (([0x82, 0x01, 0x00] : List Nat)[0]? = some 0x82 ∧ 0x82 &&& 0x7f = 2 ∧
      decodeLength [0x82, 0x01, 0x00] 0 = .ok ⟨256, 3⟩) := by
  refine ⟨⟨by decide, by decide, by decide, ?_⟩, ⟨by decide, by decide, ?_⟩,
    ⟨by decide, by decide, ?_⟩⟩
  · exact (decode_length_long_form [0x80] 0 0 0x80 (by decide) (by decide) (by decide)).1 rfl
  · exact (decode_length_long_form [0x85, 1, 2, 3, 4, 5] 0 5 0x85 (by decide) (by decide)
      (by decide)).2.1 (by decide)
  · have h := (decode_length_long_form [0x82, 0x01, 0x00] 0 2 0x82 (by decide) (by decide)
      (by decide)).2.2 (by decide) (by decide) (by decide)
      (by decide) (by decide)
    simpa using h

/-- Claim C8 counterexample: a CHOICE whose single (hence pairwise
tag-distinct) alternative is itself an untagged CHOICE.  The alternative's
intrinsic tag is the `0xff` CHOICE marker, but its encoding starts with the
inner alternative's tag, so decoding the just-encoded bytes fails with "no
choice found" instead of returning the encoded alternative name. -/
theorem choice_decode_fails_nested_choice :
    (ChoiceType "Outer" [⟨"a", ChoiceType "Inner" [⟨"b", BooleanType "B", none⟩], none⟩]).encode
        (.vObj [("a", .vObj [("b", .vBool true)])]) = .ok [0x01, 0x01, 0xff] ∧
    (ChoiceType "Outer" [⟨"a", ChoiceType "Inner" [⟨"b", BooleanType "B", none⟩], none⟩]).decode
        [0x01, 0x01, 0xff] 0
      = .error (.decodeErr "CHOICE Outer: no choice found for tag 1" (some 0)) := by
  exact ⟨rfl, rfl⟩

/-- A direct transcription of the specification's four numbered SEQUENCE
encoding steps, used only to compare against the source translation
`seqEncodeMembers`: for each declared member in declared order — 1. if a
(non-null) value is supplied, encode it and append; 2. else if optional,
skip; 3. else if a default exists, encode the default and append; 4. else
fail with the missing-required-member EncodeError. -/
def seqEncodeSpec (seqName : String) : List SeqMember → Value → Except Err (List Nat)
  | [], _ => .ok []
  | m :: rest, value =>
      let memberValue := getProp value m.name
      if ¬jsAbsent memberValue then do
        let encoded ← m.type.encode (memberValue.getD .vNull)
        let tail ← seqEncodeSpec seqName rest value
        .ok (encoded ++ tail)
      else if m.optional then seqEncodeSpec seqName rest value
      else
        match m.defaultValue with
        | some d => do
            let encoded ← m.type.encode d
            let tail ← seqEncodeSpec seqName rest value
            .ok (encoded ++ tail)
        | none =>
            .error (.encodeErr ("SEQUENCE " ++ seqName ++ ": missing required member " ++ m.name))

/-- The source's frame-list accumulation flattens to the specification's
step-by-step byte stream. -/
lemma seqEncodeMembers_eq_spec (nm : String) :
    ∀ (ms : List SeqMember) (value : Value),
      (seqEncodeMembers nm ms value).map List.flatten = seqEncodeSpec nm ms value := by
  intro ms
  induction ms with
  | nil => intro value; rfl
  | cons m rest ih =>
    intro value
    simp only [seqEncodeMembers, seqEncodeSpec]
    by_cases ha : jsAbsent (getProp value m.name)
    · simp only [ha, if_true, ite_not, if_false]
      by_cases ho : m.optional = true
      · simp [ho, ih]
      · simp only [ho, if_false]
        rcases hd : m.defaultValue with _ | d
        · simp [Except.map]
        · rcases he : m.type.encode d with e | enc
          · simp [he, except_error_bind, Except.map]
          · rcases ht : seqEncodeMembers nm rest value with e2 | tail
            · have h := ih value
              rw [ht] at h
              simp [he, ht, except_ok_bind, except_error_bind, ← h, Except.map]
            · have h := ih value
              rw [ht] at h
              simp [he, ht, except_ok_bind, ← h, Except.map]
    · simp only [ha, ite_not, if_true, Bool.false_eq_true, if_false]
      rcases he : m.type.encode ((getProp value m.name).getD .vNull) with e | enc
      · simp [he, except_error_bind, Except.map]
      · rcases ht : seqEncodeMembers nm rest value with e2 | tail
        · have h := ih value
          rw [ht] at h
          simp [he, ht, except_ok_bind, except_error_bind, ← h, Except.map]
        · have h := ih value
          rw [ht] at h
          simp [he, ht, except_ok_bind, ← h, Except.map]

/-- Claim C6 (confirmed): SEQUENCE encoding processes the declared members
in declared order with exactly the claimed case split — supplied value
encoded and appended, optional members skipped, defaults encoded, and a
missing required member raising the EncodeError — shown by proving
`SequenceType.encode` equal on object inputs to the step-by-step
transcription `seqEncodeSpec` of the specification (wrapped with the
constructed SEQUENCE tag).  Supplying `null` counts as not supplying a
value, the reading the implicit-behavior claim C10 pins down. -/
theorem sequence_encode_follows_spec (nm : String) (members : List SeqMember)
    (fields : List (String × Value)) :
    (SequenceType nm members).encode (.vObj fields) =
      (seqEncodeSpec nm members (.vObj fields) >>= fun content =>
        encodeWithTagF tagSEQUENCE true content) := by
  have h := seqEncodeMembers_eq_spec nm members (.vObj fields)
  simp only [SequenceType, jsFalsy, jsIsObject]
  rcases ht : seqEncodeMembers nm members (.vObj fields) with e | frames
  · rw [ht] at h
    simp [← h, except_error_bind, Except.map]
  · rw [ht] at h
    simp [← h, except_ok_bind, Except.map]

/-- Claim C9 (confirmed): tag verification on decode compares only the
decoded tag number.  Any first octet whose low five bits equal the INTEGER
tag number 2 passes the tag check regardless of its class and constructed
bits, and the frame is decoded normally instead of raising a tag-mismatch
DecodeError. -/
theorem decode_tag_ignores_class_bits (nm : String) (b c : Nat)
    (hb : b &&& 0x1f = tagINTEGER) (hc : c &&& 0x80 = 0) :
    decodeWithTagF nm tagINTEGER [b, 0x01, c] 0 = .ok ([c], 3) ∧
    (IntegerType nm).decode [b, 0x01, c] 0 = .ok (.vInt c, 3) := by
  have h1 : decodeTag [b, 1, c] 0 = .ok ⟨(2 : Int), 1, decide (b &&& 0x20 ≠ 0)⟩ := by
    simp only [decodeTag, listGetI, tagINTEGER] at *
    norm_num
    rw [hb]
    norm_num
  have h2 : decodeLength [b, 1, c] 1 = .ok ⟨1, 1⟩ := by
    simp only [decodeLength, listGetI]
    norm_num
  have h3 : decodeWithTagF nm tagINTEGER [b, 1, c] 0 = .ok ([c], 3) := by
    simp only [decodeWithTagF, h1, except_ok_bind, tagINTEGER]
    norm_num
    simp only [h2, except_ok_bind]
    norm_num [jsSlice]
    rfl
  refine ⟨h3, ?_⟩
  simp only [tagINTEGER] at h3
  simp only [IntegerType, tagINTEGER, h3, except_ok_bind]
  norm_num [decodeSignedInteger, hc, beAccum, toSafeNumber, Nat.zero_shiftLeft]
  rfl

/-- Witness for C9 at the claim's own example: first octet `0x82`
(context-specific class, primitive form, tag number 2) decodes as a normal
INTEGER frame. -/
theorem decode_tag_ignores_class_bits_witness :
    (0x82 &&& 0x1f = tagINTEGER ∧ 0x05 &&& 0x80 = 0) ∧
    (decodeWithTagF "T9" tagINTEGER [0x82, 0x01, 0x05] 0 = .ok ([5], 3) ∧
      (IntegerType "T9").decode [0x82, 0x01, 0x05] 0 = .ok (.vInt 5, 3)) :=
  ⟨⟨by decide, by decide⟩,
    decode_tag_ignores_class_bits "T9" 0x82 0x05 (by decide) (by decide)⟩

/-- Claim C10 (confirmed): SEQUENCE encoding treats an explicit `null`
exactly like an absent member, so a required NULL member without a default
raises the missing-required-member EncodeError even though `NullType.encode`
itself accepts `null` (it produces `05 00`).  A required NULL member can
therefore never be encoded by passing `null` for it. -/
theorem sequence_null_member_rejected (nm tn mn : String) (rest : List SeqMember) :
    (SequenceType nm ({ name := mn, type := NullType tn } :: rest)).encode
        (.vObj [(mn, .vNull)])
      = .error (.encodeErr ("SEQUENCE " ++ nm ++ ": missing required member " ++ mn)) ∧
    (NullType tn).encode .vNull = .ok [0x05, 0x00] := by
  constructor
  · show (SequenceType nm _).encode _ = _
    simp only [SequenceType, seqEncodeMembers, getProp, jsFalsy, jsIsObject, List.lookup,
      beq_self_eq_true, if_true, Bool.false_eq_true, or_self, if_false, ite_true, ite_false]
    rfl
  · rfl

end Asn1Tools

namespace Asn1Tools

lemma mapGet_foldl_set_not_mem {κ α β : Type} [DecidableEq κ] (key : β → κ) (val : β → α) :
    ∀ (l : List β) (init : List (κ × α)) (q : κ), q ∉ l.map key →
      mapGet (l.foldl (fun m x => mapSet m (key x) (val x)) init) q = mapGet init q := by
  intro l
  induction l with
  | nil => intro init q _; rfl
  | cons x rest ih =>
    intro init q hq
    simp only [List.map, List.mem_cons, not_or] at hq
    simp only [List.foldl]
    rw [ih _ q hq.2, mapGet_set_ne _ _ _ _ (fun hh => hq.1 hh)]

lemma mapGet_foldl_set_mem {κ α β : Type} [DecidableEq κ] (key : β → κ) (val : β → α) :
    ∀ (l : List β) (init : List (κ × α)) (c : β), c ∈ l → (l.map key).Nodup →
      mapGet (l.foldl (fun m x => mapSet m (key x) (val x)) init) (key c) = some (val c) := by
  intro l
  induction l with
  | nil => intro init c hc; cases hc
  | cons x rest ih =>
    intro init c hc hnd
    simp only [List.map, List.nodup_cons] at hnd
    rcases List.mem_cons.mp hc with hh | hh
    · subst hh
      simp only [List.foldl]
      rw [mapGet_foldl_set_not_mem key val rest _ (key c) hnd.1, mapGet_set_self]
    · simp only [List.foldl]
      exact ih _ c hh hnd.2

lemma lor_and_31 (n : Nat) (hn : n < 31) : (n ||| 0xa0) &&& 0x1f = n := by
  interval_cases n <;> decide

lemma lor_and_128 (n : Nat) (hn : n < 31) : (n ||| 0xa0) &&& 0x80 ≠ 0 := by
  interval_cases n <;> decide

lemma and_128_of_lt (L : Nat) (h : L < 128) : L &&& 0x80 = 0 := by
  interval_cases L <;> decide

end Asn1Tools

namespace Asn1Tools

lemma natToBytesBE_len : ∀ (fuel d L : Nat), L < 256 ^ d → (natToBytesBE fuel L).length ≤ d := by
  intro fuel
  induction fuel with
  | zero => intro d L _; simp [natToBytesBE]
  | succ fuel ih =>
    intro d L hL
    by_cases h0 : L = 0
    · simp [natToBytesBE, h0]
    · have hd : 1 ≤ d := by
        by_contra hh
        have : d = 0 := by omega
        subst this
        simp at hL
        omega
      have hdiv : L / 256 < 256 ^ (d - 1) := by
        have h256 : 256 ^ d = 256 ^ (d - 1) * 256 := by
          rw [← pow_succ]
          congr 1
          omega
        rw [h256] at hL
        exact Nat.div_lt_of_lt_mul (by omega)
      simp only [natToBytesBE, h0, if_false, List.length_append, List.length_cons,
        List.length_nil]
      have := ih (d - 1) (L / 256) hdiv
      omega

lemma natToBytesBE_mem_lt : ∀ (fuel L x : Nat), x ∈ natToBytesBE fuel L → x < 256 := by
  intro fuel
  induction fuel with
  | zero => intro L x hx; simp [natToBytesBE] at hx
  | succ fuel ih =>
    intro L x hx
    by_cases h0 : L = 0
    · simp [natToBytesBE, h0] at hx
    · simp only [natToBytesBE, h0, if_false, List.mem_append, List.mem_cons,
        List.not_mem_nil, or_false] at hx
      rcases hx with hx | hx
      · exact ih _ x hx
      · rw [hx]
        exact Nat.mod_lt _ (by omega)

lemma natToBytesBE_nonempty (fuel L : Nat) (h0 : L ≠ 0) (hf : 1 ≤ fuel) :
    1 ≤ (natToBytesBE fuel L).length := by
  cases fuel with
  | zero => omega
  | succ fuel =>
    simp [natToBytesBE, h0]

lemma beValFrom_natToBytesBE : ∀ (fuel L acc : Nat), L < 256 ^ fuel →
    beValFrom acc (natToBytesBE fuel L) =
      acc * 256 ^ (natToBytesBE fuel L).length + L := by
  intro fuel
  induction fuel with
  | zero =>
    intro L acc hL
    simp at hL
    simp [natToBytesBE, beValFrom, hL]
  | succ fuel ih =>
    intro L acc hL
    by_cases h0 : L = 0
    · simp [natToBytesBE, h0, beValFrom]
    · have hdiv : L / 256 < 256 ^ fuel := by
        have h256 : 256 ^ (fuel + 1) = 256 ^ fuel * 256 := by rw [pow_succ]
        rw [h256] at hL
        exact Nat.div_lt_of_lt_mul (by omega)
      simp only [natToBytesBE, h0, if_false]
      have happ : beValFrom acc (natToBytesBE fuel (L / 256) ++ [L % 256]) =
          beValFrom acc (natToBytesBE fuel (L / 256)) * 256 + L % 256 := by
        simp [beValFrom, List.foldl_append]
      rw [happ, ih (L / 256) acc hdiv]
      simp only [List.length_append, List.length_cons, List.length_nil]
      have : acc * 256 ^ ((natToBytesBE fuel (L / 256)).length + (0 + 1)) =
          acc * 256 ^ (natToBytesBE fuel (L / 256)).length * 256 := by
        rw [pow_succ]
        ring_nf
      rw [Nat.add_mul, this]
      have := Nat.div_add_mod L 256
      omega

end Asn1Tools

namespace Asn1Tools

lemma lor128_and_127 (k : Nat) (hk : k ≤ 4) : (0x80 ||| k) &&& 0x7f = k := by
  interval_cases k <;> decide

lemma lor128_and_128 (k : Nat) (hk : k ≤ 4) : (0x80 ||| k) &&& 0x80 ≠ 0 := by
  interval_cases k <;> decide

lemma encodeLength_ok (L : Nat) (hL : L < 2 ^ 31) :
    ∃ enc, encodeLength L = .ok enc ∧ 1 ≤ enc.length := by
  by_cases hs : L ≤ 127
  · exact ⟨[L], by simp [encodeLength, hs], by simp⟩
  · have hlen : (natToBytesBE (L + 1) L).length ≤ 4 := by
      apply natToBytesBE_len
      have : (256 : Nat) ^ 4 = 2 ^ 32 := by norm_num
      omega
    refine ⟨(0x80 ||| (natToBytesBE (L + 1) L).length) :: natToBytesBE (L + 1) L, ?_, by simp⟩
    simp only [encodeLength, hs, if_false]
    rw [if_neg (by omega)]

lemma L_lt_pow (L : Nat) : L < 256 ^ (L + 1) := by
  calc L < 2 ^ L := Nat.lt_two_pow L
  _ ≤ 256 ^ L := Nat.pow_le_pow_left (by omega) L
  _ ≤ 256 ^ (L + 1) := Nat.pow_le_pow_right (by omega) (by omega)

lemma decodeLength_encodeLength (L : Nat) (hL : L < 2 ^ 31) (enc pre post : List Nat)
    (henc : encodeLength L = .ok enc) :
    decodeLength (pre ++ enc ++ post) (pre.length : Int) = .ok ⟨(L : Int), enc.length⟩ := by
  by_cases hs : L ≤ 127
  · have henc' : enc = [L] := by
      simp only [encodeLength, hs, if_pos] at henc
      cases henc
      rfl
    subst henc'
    have hlen : (pre ++ [L] ++ post).length = pre.length + 1 + post.length := by
      simp only [List.length_append, List.length_cons, List.length_nil]
    have hguard : ¬ ((pre.length : Int) ≥ ((pre ++ [L] ++ post).length : Int)) := by
      rw [hlen]; push_cast; omega
    have hget : listGetI (pre ++ [L] ++ post) (pre.length : Int) = some L := by
      rw [listGetI_natCast]
      rw [List.append_assoc, List.getElem?_append_right (Nat.le_refl _)]
      simp
    simp only [decodeLength, if_neg hguard, hget, and_128_of_lt L (by omega), if_pos rfl]
    simp
  · have h0 : L ≠ 0 := by omega
    have hblen4 : (natToBytesBE (L + 1) L).length ≤ 4 := by
      apply natToBytesBE_len
      have : (256 : Nat) ^ 4 = 2 ^ 32 := by norm_num
      omega
    have hblen1 : 1 ≤ (natToBytesBE (L + 1) L).length :=
      natToBytesBE_nonempty _ _ h0 (by omega)
    have hval : beValFrom 0 (natToBytesBE (L + 1) L) = L := by
      rw [beValFrom_natToBytesBE (L + 1) L 0 (L_lt_pow L)]
      simp
    have hmem : ∀ x ∈ natToBytesBE (L + 1) L, x < 256 :=
      fun x hx => natToBytesBE_mem_lt _ _ x hx
    have henc' : enc = (0x80 ||| (natToBytesBE (L + 1) L).length) :: natToBytesBE (L + 1) L := by
      simp only [encodeLength, hs, if_false] at henc
      rw [if_neg (by omega)] at henc
      cases henc
      rfl
    generalize hbytes : natToBytesBE (L + 1) L = bytes at hblen4 hblen1 hval hmem henc'
    subst henc'
    have hlen : (pre ++ ((0x80 ||| bytes.length) :: bytes) ++ post).length =
        pre.length + (1 + bytes.length) + post.length := by
      simp only [List.length_append, List.length_cons]
      omega
    have hguard : ¬ ((pre.length : Int) ≥
        (((pre ++ ((0x80 ||| bytes.length) :: bytes) ++ post).length : Nat) : Int)) := by
      rw [hlen]; push_cast; omega
    have hget : listGetI (pre ++ ((0x80 ||| bytes.length) :: bytes) ++ post)
        (pre.length : Int) = some (0x80 ||| bytes.length) := by
      rw [listGetI_natCast]
      rw [List.append_assoc, List.getElem?_append_right (Nat.le_refl _)]
      simp
    have hwindow : ((pre ++ ((0x80 ||| bytes.length) :: bytes) ++ post).drop
        (pre.length + 1)).take bytes.length = bytes := by
      have hsplit : pre ++ ((0x80 ||| bytes.length) :: bytes) ++ post =
          (pre ++ [0x80 ||| bytes.length]) ++ (bytes ++ post) := by
        simp
      rw [hsplit]
      rw [show pre.length + 1 = (pre ++ [0x80 ||| bytes.length]).length by simp]
      rw [List.drop_left]
      exact List.take_left bytes post
    have hloop := decodeLengthLoop_ok (pre ++ ((0x80 ||| bytes.length) :: bytes) ++ post)
      pre.length bytes.length 1 0
      (by rw [hlen]; omega)
      (by rw [hwindow]; exact hmem)
      (by rw [hwindow]; show beValFrom 0 bytes < 2 ^ 31; omega)
    rw [hwindow] at hloop
    simp only [decodeLength, if_neg hguard, hget]
    rw [if_neg (lor128_and_128 bytes.length hblen4), lor128_and_127 bytes.length hblen4]
    rw [if_neg (by omega : ¬ bytes.length = 0), if_neg (by omega : ¬ 4 < bytes.length)]
    rw [if_neg (by rw [hlen]; push_cast; omega :
      ¬ ((pre.length : Int) + (bytes.length : Int) ≥
        (((pre ++ ((0x80 ||| bytes.length) :: bytes) ++ post).length : Nat) : Int)))]
    rw [show ((0 : Nat) : Int) = (0 : Int) from rfl] at hloop
    rw [hloop, except_ok_bind, hval]
    simp

lemma decodeTag_low (b : Nat) (rest : List Nat) (hlow : b &&& 0x1f ≠ 0x1f) :
    decodeTag (b :: rest) 0 = .ok ⟨((b &&& 0x1f : Nat) : Int), 1, decide (b &&& 0x20 ≠ 0)⟩ := by
  simp only [decodeTag, listGetI]
  norm_num
  simp [hlow]

lemma jsSlice_exact (hdr inner : List Nat) :
    jsSlice (hdr ++ inner) (hdr.length : Int) ((hdr.length : Int) + (inner.length : Int)) =
      inner := by
  simp only [jsSlice]
  rw [if_neg (by omega : ¬ ((hdr.length : Int) < 0))]
  rw [if_neg (by omega : ¬ ((hdr.length : Int) + (inner.length : Int) < 0))]
  rw [show ((hdr.length : Int) + (inner.length : Int)).toNat = hdr.length + inner.length by omega]
  rw [show (hdr.length : Int).toNat = hdr.length by omega]
  rw [show hdr.length + inner.length = (hdr ++ inner).length by simp]
  rw [List.take_length]
  exact List.drop_left hdr inner

end Asn1Tools

namespace Asn1Tools

/-- Claim C8 (corrected): for a CHOICE codec whose alternatives have pairwise
distinct names and pairwise distinct effective tag numbers, decoding the
encoding of an alternative value yields a single-entry object whose sole key is
the encoded alternative name, provided the alternative codec decodes its own
encoding and, for an untagged alternative, the encoding starts with the
declared tag number of the alternative type. -/
theorem choice_decode_yields_encoded_name
    (nm a : String) (alts : List ChoiceAlt) (t : Asn1TypeI) (tagOpt : Option Nat)
    (v w : Value) (inner bts : List Nat) (len1 : Int)
    (hmem : ChoiceAlt.mk a t tagOpt ∈ alts)
    (hnames : (alts.map ChoiceAlt.name).Nodup)
    (htags : (alts.map effTagOf).Nodup)
    (henc : (ChoiceType nm alts).encode (.vObj [(a, v)]) = .ok bts)
    (hencv : t.encode v = .ok inner)
    (hlen31 : inner.length < 2 ^ 31)
    (hlow : ∀ n, tagOpt = some n → n < 31)
    (hfirst : tagOpt = none →
      ∃ tl cb, decodeTag inner 0 = .ok ⟨(t.tag : Int), tl, cb⟩)
    (hdec : t.decode inner 0 = .ok (w, len1)) :
    ∃ total, (ChoiceType nm alts).decode bts 0 = .ok (.vObj [(a, w)], total) := by
  have hchoices : mapGet (choicesMapOf alts) a = some (t, tagOpt) := by
    have h := mapGet_foldl_set_mem ChoiceAlt.name (fun c => (c.type, c.tag)) alts []
      ⟨a, t, tagOpt⟩ hmem hnames
    simpa [choicesMapOf] using h
  have htag1 : mapGet (tagToChoiceOf alts) (effTagOf ⟨a, t, tagOpt⟩) = some a := by
    have h := mapGet_foldl_set_mem effTagOf ChoiceAlt.name alts [] ⟨a, t, tagOpt⟩ hmem htags
    simpa [tagToChoiceOf] using h
  have ha : ¬ (a = "") := by
    intro hh
    subst hh
    simp [ChoiceType, jsFalsy, jsIsObject, jsKeys] at henc
  simp only [ChoiceType, jsFalsy, jsIsObject, jsKeys, List.map, List.length_cons,
    List.length_nil, getProp, List.lookup, beq_self_eq_true, if_true, List.headD,
    hchoices] at henc
  norm_num [ha] at henc
  cases tagOpt with
  | some n =>
    have hn31 : n < 31 := hlow n rfl
    dsimp only at henc
    rw [hencv, except_ok_bind] at henc
    obtain ⟨encL, hencL, hencL1⟩ := encodeLength_ok inner.length hlen31
    rw [hencL, except_ok_bind] at henc
    have htagbytes : encodeTag n (classCONTEXT_SPECIFIC ||| encodingCONSTRUCTED) =
        [n ||| 0xa0] := by
      simp [encodeTag, hn31, classCONTEXT_SPECIFIC, encodingCONSTRUCTED]
    rw [htagbytes] at henc
    have hbts : bts = (n ||| 0xa0) :: (encL ++ inner) := by
      cases henc
      rfl
    subst hbts
    have hand31 : (n ||| 0xa0) &&& 0x1f = n := lor_and_31 n hn31
    have hlowform : (n ||| 0xa0) &&& 0x1f ≠ 0x1f := by omega
    have hdtag : decodeTag (((n ||| 0xa0) :: (encL ++ inner))) 0 =
        .ok ⟨(n : Int), 1, decide ((n ||| 0xa0) &&& 0x20 ≠ 0)⟩ := by
      have h := decodeTag_low (n ||| 0xa0) (encL ++ inner) hlowform
      rw [hand31] at h
      exact h
    have hlen : (((n ||| 0xa0) :: (encL ++ inner)) : List Nat).length =
        1 + encL.length + inner.length := by
      simp only [List.length_cons, List.length_append]
      omega
    have hguard : ¬ ((0 : Int) ≥ ((((n ||| 0xa0) :: (encL ++ inner)) : List Nat).length : Int)) := by
      rw [hlen]; push_cast; omega
    have hdlen : decodeLength ((n ||| 0xa0) :: (encL ++ inner)) ((0 : Int) + (1 : Int)) =
        .ok ⟨(inner.length : Int), encL.length⟩ := by
      have h := decodeLength_encodeLength inner.length hlen31 encL [n ||| 0xa0] inner hencL
      have heq : (([n ||| 0xa0] : List Nat).length : Int) = (0 : Int) + (1 : Int) := by
        simp
      rw [heq] at h
      simpa using h
    have hslice : jsSlice ((n ||| 0xa0) :: (encL ++ inner))
        ((0 : Int) + (1 : Int) + (encL.length : Int))
        ((0 : Int) + (1 : Int) + (encL.length : Int) + (inner.length : Int)) = inner := by
      have h := jsSlice_exact ((n ||| 0xa0) :: encL) inner
      have h1 : (((n ||| 0xa0) :: encL) : List Nat).length = 1 + encL.length := by
        simp [Nat.add_comm]
      have h2 : ((n ||| 0xa0) :: encL) ++ inner = (n ||| 0xa0) :: (encL ++ inner) := by
        simp
      rw [h1, h2] at h
      have h3 : ((1 + encL.length : Nat) : Int) = (0 : Int) + (1 : Int) + (encL.length : Int) := by
        push_cast; ring
      rw [h3] at h
      exact h
    refine ⟨(1 : Int) + (encL.length : Int) + (inner.length : Int), ?_⟩
    simp only [ChoiceType, hdtag, except_ok_bind, if_neg hguard, Nat.cast_one]
    rw [show effTagOf ⟨a, t, some n⟩ = (n : Int) from rfl] at htag1
    simp only [htag1, hchoices, hdlen, except_ok_bind]
    rw [if_neg (by rw [hlen]; push_cast; omega :
      ¬ ((0 : Int) + (1 : Int) + (encL.length : Int) + (inner.length : Int) >
        ((((n ||| 0xa0) :: (encL ++ inner)) : List Nat).length : Int)))]
    simp only [hslice, hdec, except_ok_bind]
  | none =>
    dsimp only at henc
    rw [hencv] at henc
    have hbts : inner = bts := Except.ok.inj henc
    subst hbts
    obtain ⟨tl, cb, htg⟩ := hfirst rfl
    have hne : inner ≠ [] := by
      intro hh
      rw [hh] at htg
      simp [decodeTag] at htg
    have hguard : ¬ ((0 : Int) ≥ ((inner.length : Nat) : Int)) := by
      have : 0 < inner.length := List.length_pos.mpr hne
      omega
    refine ⟨len1, ?_⟩
    simp only [ChoiceType, if_neg hguard, htg, except_ok_bind]
    rw [show effTagOf ⟨a, t, none⟩ = (t.tag : Int) from rfl] at htag1
    simp only [htag1, hchoices, hdec, except_ok_bind]

/-- Witness for C8: a two-alternative CHOICE with a tagged INTEGER alternative
decodes A0 03 02 01 05 back to the object keyed by the encoded name. -/
theorem choice_decode_yields_encoded_name_witness :
    ∃ total,
      (ChoiceType "C" [⟨"a", IntegerType "I", some 0⟩, ⟨"b", BooleanType "B", none⟩]).decode
        [0xa0, 3, 2, 1, 5] 0 = .ok (.vObj [("a", .vInt 5)], total) :=
  choice_decode_yields_encoded_name "C" "a"
    [⟨"a", IntegerType "I", some 0⟩, ⟨"b", BooleanType "B", none⟩]
    (IntegerType "I") (some 0) (.vInt 5) (.vInt 5) [2, 1, 5] [0xa0, 3, 2, 1, 5] 3
    (List.mem_cons_self _ _)
    (by decide)
    (by decide)
    rfl
    rfl
    (by norm_num)
    (fun n h => by cases h; decide)
    (fun h => Option.noConfusion h)
    rfl

end Asn1Tools
